import Mathlib

/-
  Verification of the loom-allocation engine of the uzmanDepo repository.

  The embedding below is a shallow functional model of the Python sources:

    * `UZMANRAPOR/app/planning_dialog.py` — compatibility rules, eligibility
      rules, and the interactive / automatic allocators (namespace `PD`);
    * `UZMANRAPOR/UZMANRAPOR/app/team_planning_flow.py` — the eligibility
      helper `_loom_allowed` and the tiered candidate builder
      `TezgahPicker._build_and_fill` (namespace `TPF`).

  Modelling conventions, used consistently below:
    * pandas rows become Lean structures; the derived columns the code
      computes upstream (`_TarakKey`, `_TG_norm`, `_OpenTezgahFlag`,
      `_KalanMetreNorm`, `_LeventHasDigits`, `_DyeCategory`) are fields of
      those structures, normalisation having been applied by the loader;
    * machine identity is the machine number (the code stores the digit
      string of the loom cell; cells are the decimal rendering of the
      number);
    * a missing (NaN) cell of a text column is rendered as the string
      "nan", exactly what Python's `str(...)` produces and what the code
      tests against;  the job's assignment column is an `Option`: `none`
      models both the empty string and NaN (the code treats the two
      identically), `some .atla` the skip sentinel "Atla", `some (.loom n)`
      an assigned machine number;
    * `pandas.sort_values` is modelled by the stable `List.insertionSort`;
      the claims under study do not depend on the order of exact ties;
    * Python string primitives are re-implemented structurally on
      `List Char` so that every definition evaluates inside the kernel.
-/

namespace UzmanDepo

/-- Drops leading and trailing whitespace, the model of Python `str.strip()`. -/
def trimChars (l : List Char) : List Char :=
  ((l.dropWhile Char.isWhitespace).reverse.dropWhile Char.isWhitespace).reverse

/-- String version of `trimChars`. -/
def sTrim (s : String) : String := ⟨trimChars s.data⟩

/-- Model of Python `str.upper()` (the values compared in the sources are ASCII). -/
def sToUpper (s : String) : String := ⟨s.data.map Char.toUpper⟩

/-- Model of Python `str.lower()`. -/
def sToLower (s : String) : String := ⟨s.data.map Char.toLower⟩

/-- Lexicographic code-point comparison of character lists, the order Python
uses when sorting strings. -/
def charListLe : List Char → List Char → Bool
  | [], _ => true
  | _ :: _, [] => false
  | a :: as, b :: bs => if a < b then true else if b < a then false else charListLe as bs

/-- Does the second list start with the first one? -/
def startsWithChars : List Char → List Char → Bool
  | [], _ => true
  | _ :: _, [] => false
  | p :: ps, h :: hs => p == h && startsWithChars ps hs

/-- Substring test, the model of pandas `str.contains` with a plain pattern. -/
def containsChars (pat : List Char) : List Char → Bool
  | [] => startsWithChars pat []
  | h :: hs => startsWithChars pat (h :: hs) || containsChars pat hs

/-- Substring test on strings. -/
def sContains (hay pat : String) : Bool := containsChars pat.data hay.data

/-- Longest run of decimal digits at the front of the list. -/
def digitsAt : List Char → List Char
  | [] => []
  | c :: rest => if c.isDigit then c :: digitsAt rest else []

/-- First maximal run of decimal digits anywhere in the list, the model of
Python `re.search("(\\d+)", s)`. -/
def firstDigitRun : List Char → Option (List Char)
  | [] => none
  | c :: rest => if c.isDigit then some (c :: digitsAt rest) else firstDigitRun rest

/-- Reads a digit run as a number, the model of Python `int(...)` on the match. -/
def digitsToNat (l : List Char) : Nat :=
  l.foldl (fun a c => a * 10 + (c.toNat - 48)) 0

/-- Model of `_extract_selv_teeth` (planning_dialog.py, lines 28-41): strip the
cell text and return the first integer found in it, if any.  A NaN cell reaches
the engine as the text "nan", which contains no digit and yields `none`, the
same answer the Python gives for NaN directly. -/
def extract_selv_teeth (s : String) : Option Nat :=
  (firstDigitRun (trimChars s.data)).map digitsToNat

/-- Tooth counts that are mutually compatible regardless of their difference
(planning_dialog.py, line 72). -/
def specialTeeth : List Nat := [8, 10, 18]

/-- Distance of two naturals. -/
def natDist (a b : Nat) : Nat := if a ≤ b then b - a else a - b

/-- Model of `_selvedge_compatible_auto` (planning_dialog.py, lines 44-79).
The Python function also receives an unused `tarak_group` argument, omitted
here.  Both call sites pass already-stripped strings; the function strips its
arguments again, which the model reproduces. -/
def selvedge_compatible_auto (job_sup loom_sup : String) : Bool :=
  let j := sTrim job_sup
  let l := sTrim loom_sup
  if j = "" || l = "" then true
  else if j = l then true
  else
    match extract_selv_teeth j, extract_selv_teeth l with
    | some tJob, some tLoom =>
        if specialTeeth.contains tJob && specialTeeth.contains tLoom then true
        else natDist tJob tLoom ≤ 2
    | _, _ => false

/-- Model of `_orgu_prefix` (planning_dialog.py, lines 82-84): the upper-cased
first character of the stripped text, or the empty string. -/
def orgu_head (s : String) : String :=
  match trimChars s.data with
  | [] => ""
  | c :: _ => ⟨[c.toUpper]⟩

/-- Model of `_orgu_compatible` (planning_dialog.py, lines 87-101). -/
def orgu_compatible (job_orgu loom_orgu : String) : Bool :=
  let jp := orgu_head job_orgu
  let lp := orgu_head loom_orgu
  if jp = "" || lp = "" then true
  else !((jp = "3" && lp = "K") || (jp = "K" && lp = "3"))

/-- The fixed never-allowed machine numbers (planning_dialog.py line 23 and
team_planning_flow.py line 49). -/
def NEVER : List Nat := [2430, 2432, 2434, 2436, 2438, 2440, 2442, 2444, 2446]

/-- Model of `_loom_in_category` (planning_dialog.py, lines 104-113).  The
Python parses the loom number from its argument and returns false when parsing
fails; the model receives the parsed number.  `HAM_ALLOWED` is
`range(2447, 2519)` and `DENIM_ALLOWED_RANGE` is `(2201, 2446)`. -/
def loom_in_category (n : Nat) (category : String) : Bool :=
  if NEVER.contains n then false
  else if sToUpper category = "HAM" then 2447 ≤ n && n ≤ 2518
  else 2201 ≤ n && n ≤ 2446

/-- Model of `_loom_allowed` (team_planning_flow.py, lines 130-137); `none`
models the unparsable loom number. -/
def loom_allowed (loom_no : Option Nat) (grp_type : String) : Bool :=
  match loom_no with
  | none => false
  | some n =>
      if NEVER.contains n then false
      else if grp_type = "ham" then 2447 ≤ n && n ≤ 2518
      else 2201 ≤ n && n ≤ 2446

/-- Decision chain of claim C2, written the way the claim words it: compatible
when a side is empty or the sides are equal, otherwise both tooth counts must
parse and either both lie in the tolerant set or differ by at most 2. -/
def selv_claim_chain (j l : String) : Bool :=
  (j = "" || l = "" || j = l) ||
    (match extract_selv_teeth j, extract_selv_teeth l with
     | some tJob, some tLoom =>
         (specialTeeth.contains tJob && specialTeeth.contains tLoom) || natDist tJob tLoom ≤ 2
     | _, _ => false)

namespace PD

/-- Value of the mutable `Tezgah Numarası` column of a job once it is set:
either an assigned machine number or the skip sentinel "Atla". -/
inductive Assign where
  | loom (n : Nat)
  | atla
deriving DecidableEq, Repr

/-- One row of the job table (`df_jobs`) as the planning dialog reads it.
Text cells hold the `str(...)` rendering the code works on (a NaN cell reads
as "nan"); `termin` is the sortable due-date key (column `Mamul Termin`);
`tezgahNumarasi` is the mutable assignment column, `none` for empty or NaN. -/
structure Job where
  id : Nat
  tarakKey : String
  leventHasDigits : Bool
  dyeCategory : String
  termin : Nat
  notlar : String
  zeminOrgu : String
  susKenar : String
  tarakGrubu : String
  tezgahNumarasi : Option Assign
deriving DecidableEq, Repr

/-- One row of the running-machines table (`df_looms`) restricted to the
fields the automatic allocator reads: machine number, normalised reed-group
key, open flag, normalised remaining yardage, and the current selvedge and
weave texts. -/
structure Loom where
  tezgahNo : Nat
  tarakKey : String
  openFlag : Bool
  kalan : Option Int
  susKenar : String
  orgu : String
deriving DecidableEq, Repr

/-- Row of the free / soon tables as the automatic loop consumes it
(`_auto_plan_for_group`, lines 626-636): loom number plus its stripped
selvedge and weave texts. -/
structure LoomView where
  tezgah : Nat
  susKenar : String
  orgu : String
deriving DecidableEq, Repr

/-- Does the category string denote the raw (HAM) side?  All selection masks
of planning_dialog.py discriminate on `str(category).upper() == "HAM"`. -/
def catIsHam (category : String) : Bool := sToUpper category = "HAM"

/-- Category mask of the job-selection filters: membership of "HAM" in the
`_DyeCategory` text for the HAM side, its negation for the DENIM side
(planning_dialog.py, lines 652-655 and elsewhere). -/
def cat_mask (category : String) (j : Job) : Bool :=
  if catIsHam category then sContains j.dyeCategory "HAM" else !sContains j.dyeCategory "HAM"

/-- Combined row filter used by every job-selection step of both allocators
(`mask_group & mask_digits & mask_unassigned & mask_cat`). -/
def job_mask (key category : String) (j : Job) : Bool :=
  (j.tarakKey = key) && j.leventHasDigits && j.tezgahNumarasi.isNone && cat_mask category j

/-- The candidate jobs of a group: the masked rows sorted by due date
(`candidates.sort_values(by=sort_cols)`); both allocators then act on the
first row. -/
def select_candidates (jobs : List Job) (key category : String) : List Job :=
  List.insertionSort (fun a b => a.termin ≤ b.termin) (jobs.filter (job_mask key category))

/-- Machine numbers currently sitting in the assignment column of any job
(`assigned_looms` in `_load_looms_for_key_and_category`, lines 814-817; the
Python set also holds the literal "Atla" strings, which never compare equal
to a digit string and are therefore dropped here). -/
def assigned_looms (jobs : List Job) : List Nat :=
  jobs.filterMap fun j =>
    match j.tezgahNumarasi with
    | some (Assign.loom n) => some n
    | _ => none

/-- Model of `self.df_jobs.at[idx, "Tezgah Numarası"] = v`: rewrite the
assignment cell of the row with the given id. -/
def set_assign (jobs : List Job) (i : Nat) (v : Assign) : List Job :=
  jobs.map fun j => if j.id = i then { j with tezgahNumarasi := some v } else j

/-- Row filter of `_load_looms_for_key_and_category` (lines 823-836): the
machine number must be eligible for the category and must sit in none of the
blocked, dummy and already-assigned sets. -/
def allowed_loom (jobs : List Job) (blocked dummy : List Nat) (category : String)
    (l : Loom) : Bool :=
  loom_in_category l.tezgahNo category && !blocked.contains l.tezgahNo &&
    !dummy.contains l.tezgahNo && !(assigned_looms jobs).contains l.tezgahNo

/-- Is the machine about to open: not open, with known remaining yardage at
most the threshold (line 843)? -/
def soon_loom (thr : Int) (l : Loom) : Bool :=
  !l.openFlag &&
    (match l.kalan with
     | some v => v ≤ thr
     | none => false)

/-- Model of `_load_looms_for_key_and_category` composed with the loom-list
construction of `_auto_plan_for_group` (lines 776-863 and 626-636): keep the
machines of the reed group that pass `allowed_loom`, list the open ones first
and the about-to-open ones second, each part ordered by machine number, and
strip the selvedge and weave texts. -/
def load_looms (jobs : List Job) (df_looms : List Loom) (key category : String)
    (blocked dummy : List Nat) (thr : Int) : List LoomView :=
  let df := (df_looms.filter fun l => l.tarakKey = key).filter
    (allowed_loom jobs blocked dummy category)
  let free := List.insertionSort (fun a b : Loom => a.tezgahNo ≤ b.tezgahNo)
    (df.filter fun l => l.openFlag)
  let soon := List.insertionSort (fun a b : Loom => a.tezgahNo ≤ b.tezgahNo)
    (df.filter (soon_loom thr))
  (free ++ soon).map fun l =>
    { tezgah := l.tezgahNo, susKenar := sTrim l.susKenar, orgu := sTrim l.orgu }

/-- Does the NOTLAR text make the automatic allocator skip the job
(`if job_note and job_note.lower() not in ("", "nan", "none")`, line 1016)? -/
def note_triggers (note : String) : Bool :=
  let t := sTrim note
  t ≠ "" && !(["", "nan", "none"] : List String).contains (sToLower t)

/-- Model of `_assign_first_job_auto` (planning_dialog.py, lines 970-1061).
Returns `(ok, remove_row, updated jobs)`: `ok` when the call made progress
(an assignment or a skip), `remove_row` when the machine was consumed.  The
dead ATKI branch of the source (lines 1021-1023) is unreachable — any note
that matches the ATKI pattern already took the skip branch — and is omitted. -/
def assign_first_job_auto (jobs : List Job) (key category : String) (loomNo : Nat)
    (loomSup loomOrgu : String) : Bool × Bool × List Job :=
  match (select_candidates jobs key category).head? with
  | none => (false, false, jobs)
  | some j =>
      if note_triggers j.notlar then
        (true, false, set_assign jobs j.id Assign.atla)
      else if sTrim j.zeminOrgu ≠ "" && sTrim loomOrgu ≠ "" &&
          !orgu_compatible (sTrim j.zeminOrgu) (sTrim loomOrgu) then
        (false, false, jobs)
      else if sTrim j.susKenar ≠ "" && sTrim loomSup ≠ "" &&
          !selvedge_compatible_auto (sTrim j.susKenar) (sTrim loomSup) then
        (false, false, jobs)
      else
        (true, true, set_assign jobs j.id (Assign.loom loomNo))

/-- Inner machine walk of `_auto_plan_for_group` (lines 667-684): try the
looms in order, skipping the ones already used, until a call makes progress.
Returns the updated jobs and the consumed machine, if one was consumed. -/
def try_looms (jobs : List Job) (key category : String) :
    List LoomView → List Nat → Option (List Job × Option Nat)
  | [], _ => none
  | lv :: rest, used =>
      if used.contains lv.tezgah then try_looms jobs key category rest used
      else
        match assign_first_job_auto jobs key category lv.tezgah lv.susKenar lv.orgu with
        | (true, remove, jobs1) => some (jobs1, if remove then some lv.tezgah else none)
        | (false, _, _) => try_looms jobs key category rest used

/-- Outer job loop of `_auto_plan_for_group` (lines 644-690), written with a
fuel parameter; `auto_plan_for_group` supplies one unit of fuel per candidate
job plus one, which theorem `c7_auto_group_halts` proves sufficient. -/
def auto_loop (key category : String) (looms : List LoomView) :
    Nat → List Job → List Nat → Nat → List Job × Nat
  | 0, jobs, _, count => (jobs, count)
  | fuel + 1, jobs, used, count =>
      if (select_candidates jobs key category).isEmpty then (jobs, count)
      else
        match try_looms jobs key category looms used with
        | some (jobs1, some n) => auto_loop key category looms fuel jobs1 (n :: used) (count + 1)
        | some (jobs1, none) => auto_loop key category looms fuel jobs1 used count
        | none => (jobs, count)

/-- Model of `_auto_plan_for_group` (lines 606-690) for one reed-group key
and category: build the loom list once, then run the job loop with an empty
used set.  Returns the updated job table and the count the Python returns
(`assigned_count`). -/
def auto_plan_for_group (jobs : List Job) (df_looms : List Loom) (blocked dummy : List Nat)
    (thr : Int) (key category : String) : List Job × Nat :=
  if key = "" then (jobs, 0)
  else if (load_looms jobs df_looms key category blocked dummy thr).isEmpty then (jobs, 0)
  else
    auto_loop key category (load_looms jobs df_looms key category blocked dummy thr)
      ((select_candidates jobs key category).length + 1) jobs [] 0

/-- Model of `_current_key` (lines 692-701): the `_TarakKey` of the first job
row whose `Tarak Grubu` equals the group label, or the empty key. -/
def current_key (jobs : List Job) (label : String) : String :=
  match jobs.find? (fun j => j.tarakGrubu = label) with
  | some j => j.tarakKey
  | none => ""

/-- Model of `_load_groups` (lines 557-573): the sorted set of `Tarak Grubu`
labels of the digit-bearing jobs whose `_DyeCategory` equals the category
exactly. -/
def group_labels (jobs : List Job) (category : String) : List String :=
  List.insertionSort (fun a b : String => charListLe a.data b.data = true)
    (((jobs.filter fun j => j.leventHasDigits && j.dyeCategory = category).map
        (fun j => j.tarakGrubu)).dedup)

/-- Label loop of `auto_plan_all_groups` for one category (lines 589-602):
resolve each label to its key against the current table and run the group. -/
def run_labels (df_looms : List Loom) (blocked dummy : List Nat) (thr : Int)
    (category : String) : List String → List Job → Nat → List Job × Nat
  | [], jobs, acc => (jobs, acc)
  | lb :: rest, jobs, acc =>
      match auto_plan_for_group jobs df_looms blocked dummy thr
          (current_key jobs lb) category with
      | (jobs1, c1) => run_labels df_looms blocked dummy thr category rest jobs1 (acc + c1)

/-- Model of `auto_plan_all_groups` (lines 576-604): refresh the group lists,
run every DENIM group, then every HAM group, and return the summed count. -/
def auto_plan_all_groups (jobs : List Job) (df_looms : List Loom)
    (blocked dummy : List Nat) (thr : Int) : List Job × Nat :=
  match run_labels df_looms blocked dummy thr "DENIM" (group_labels jobs "DENIM") jobs 0 with
  | (jobs1, t1) =>
      match run_labels df_looms blocked dummy thr "HAM" (group_labels jobs "HAM") jobs1 0 with
      | (jobs2, t2) => (jobs2, t1 + t2)

/-- Operator replies to the three confirmation dialogs of the interactive
allocator (`QMessageBox` buttons of `_assign_first_job`): proceed, skip the
job, or pick another machine. -/
inductive Decision where
  | yes
  | no
  | other
deriving DecidableEq, Repr

/-- Model of the interactive `_assign_first_job` (planning_dialog.py, lines
865-968), the user's three dialog replies passed as arguments: note prompt,
weave prompt, selvedge prompt.  Returns `(ok, remove_row, updated jobs)` like
the automatic variant.  The selvedge prompt fires on plain string inequality,
not on the tolerant automatic rule. -/
def assign_first_job (jobs : List Job) (key category : String) (loomNo : Nat)
    (loomSup loomOrgu : String) (dNote dOrgu dSus : Decision) : Bool × Bool × List Job :=
  match (select_candidates jobs key category).head? with
  | none => (false, false, jobs)
  | some j =>
      if note_triggers j.notlar && dNote = Decision.no then
        (true, false, set_assign jobs j.id Assign.atla)
      else if sTrim j.zeminOrgu ≠ "" && sTrim loomOrgu ≠ "" &&
          !orgu_compatible (sTrim j.zeminOrgu) (sTrim loomOrgu) && dOrgu = Decision.no then
        (true, false, set_assign jobs j.id Assign.atla)
      else if sTrim j.zeminOrgu ≠ "" && sTrim loomOrgu ≠ "" &&
          !orgu_compatible (sTrim j.zeminOrgu) (sTrim loomOrgu) && dOrgu = Decision.other then
        (false, false, jobs)
      else if sTrim j.susKenar ≠ "" && sTrim loomSup ≠ "" &&
          sTrim j.susKenar ≠ sTrim loomSup && dSus = Decision.no then
        (true, false, set_assign jobs j.id Assign.atla)
      else if sTrim j.susKenar ≠ "" && sTrim loomSup ≠ "" &&
          sTrim j.susKenar ≠ sTrim loomSup && dSus = Decision.other then
        (false, false, jobs)
      else
        (true, true, set_assign jobs j.id (Assign.loom loomNo))

/-- Default job row, used to state positional properties through `List.getD`. -/
def defaultJob : Job := ⟨0, "", false, "", 0, "", "", "", "", none⟩

/-- Does the job hold an assigned machine (not the skip sentinel, not empty)? -/
def is_assigned (j : Job) : Bool :=
  match j.tezgahNumarasi with
  | some (Assign.loom _) => true
  | _ => false

/-- Number of jobs of the table holding an assigned machine. -/
def num_assigned (jobs : List Job) : Nat := (jobs.filter is_assigned).length

/-- One primitive state change of the allocators: an unassigned job is marked
skipped, or an unassigned job receives a machine number no job currently
holds.  Every mutation the automatic planning run performs is of this form. -/
inductive RunStep : List Job → List Job → Prop
  | skip (jobs : List Job) (j : Job) (hj : j ∈ jobs) (hun : j.tezgahNumarasi = none) :
      RunStep jobs (set_assign jobs j.id Assign.atla)
  | assign (jobs : List Job) (j : Job) (n : Nat) (hj : j ∈ jobs)
      (hun : j.tezgahNumarasi = none)
      (hfresh : (assigned_looms jobs).contains n = false) :
      RunStep jobs (set_assign jobs j.id (Assign.loom n))

/-- Reflexive-transitive closure of `RunStep`: the states an automatic
planning run can move a job table through. -/
def RunReach : List Job → List Job → Prop := Relation.ReflTransGen RunStep

/-- A group the automatic allocator can make no further progress on: the key
is empty, the loom list is empty, no candidate job remains, or the next
candidate job fits no loom of the list.  `auto_plan_for_group` leaves such a
state untouched and every run ends every processed group in such a state. -/
def Stuck (s : List Job) (df_looms : List Loom) (blocked dummy : List Nat) (thr : Int)
    (key cat : String) : Prop :=
  key = "" ∨ load_looms s df_looms key cat blocked dummy thr = [] ∨
    select_candidates s key cat = [] ∨
    (∀ lv ∈ load_looms s df_looms key cat blocked dummy thr,
      (assign_first_job_auto s key cat lv.tezgah lv.susKenar lv.orgu).1 = false)

/-- Concrete fixture: two compatible unassigned denim jobs of one reed group. -/
def jA : Job := ⟨1, "60/4/120", true, "DENIM", 1, "", "3A", "10 DİŞ", "60/4/120 X", none⟩

/-- Concrete fixture: second job of the group of `jA`. -/
def jB : Job := ⟨2, "60/4/120", true, "DENIM", 2, "", "3B", "8 DİŞ", "60/4/120 X", none⟩

/-- Concrete fixture: a job of the group of `jA` carrying a remark. -/
def jNote : Job :=
  ⟨1, "60/4/120", true, "DENIM", 1, "MALZEME BEKLİYOR", "3A", "10 DİŞ", "60/4/120 X", none⟩

/-- Concrete fixture: a job whose remark cell holds the literal text "nan". -/
def jNan : Job := ⟨1, "60/4/120", true, "DENIM", 1, "nan", "3A", "10 DİŞ", "60/4/120 X", none⟩

/-- Concrete fixture: an open machine mounted with the group of `jA`. -/
def lA : Loom := ⟨2201, "60/4/120", true, none, "10 DİŞ", "3A"⟩

/-- Concrete fixture: an about-to-open machine of the same group. -/
def lB : Loom := ⟨2202, "60/4/120", false, some 50, "8 DİŞ", "3A"⟩

end PD

namespace TPF

/-- One row of the running-machines table as `TezgahPicker` reads it:
machine number, normalised reed-group key (`_TG_norm`), open flag
(`_OpenTezgahFlag`), normalised remaining yardage (`_KalanMetreNorm`), and
the experience count the specification ascribes to a machine.  The builder
code reads no experience column; the field records the table may carry one. -/
structure RunRow where
  tezgah : Nat
  tgNorm : String
  openFlag : Bool
  kalan : Option Int
  experienceCount : Nat
deriving DecidableEq, Repr

/-- Is the machine open or within the yardage threshold (`mask_viable`,
team_planning_flow.py lines 481-487 and 511-517)? -/
def viable (thr : Int) (x : RunRow) : Bool :=
  x.openFlag ||
    (match x.kalan with
     | some v => v ≤ thr
     | none => false)

/-- Sort component `_open_prio`: open machines first. -/
def open_prio (x : RunRow) : Nat := if x.openFlag then 0 else 1

/-- Sort component `_kalan_ok`: known yardage within the threshold first. -/
def kalan_ok (thr : Int) (x : RunRow) : Nat :=
  match x.kalan with
  | some v => if v ≤ thr then 0 else 1
  | none => 1

/-- Sort component `_loom_no`: the machine number, with Python's
`(_loom_no_as_int(x) or 99999)` turning the falsy number 0 into 99999. -/
def loom_key (x : RunRow) : Nat := if x.tezgah = 0 then 99999 else x.tezgah

/-- Model of `_jobs_total_for_tg` (lines 370-378): how many job rows carry
the given normalised reed group.  `pjobs` is the list of normalised
`Tarak Grubu` values of the job table. -/
def jobs_total_for_tg (pjobs : List String) (tg : String) : Nat :=
  (pjobs.filter fun s => s = tg).length

/-- Model of `_active_looms_for_tg` (lines 380-400): machines of the group
that are eligible for the target category and not excluded. -/
def active_looms_for_tg (run : List RunRow) (grp : String) (ex : List Nat)
    (tg : String) : Nat :=
  ((run.filter fun x => x.tgNorm = tg).filter fun x =>
      loom_allowed (some x.tezgah) grp && !ex.contains x.tezgah).length

/-- Lexicographic comparison of pairs of naturals. -/
def le2 (a b : Nat × Nat) : Bool :=
  if a.1 < b.1 then true else if b.1 < a.1 then false else a.2 ≤ b.2

/-- Lexicographic comparison of triples of naturals. -/
def le3 (a b : Nat × Nat × Nat) : Bool :=
  if a.1 < b.1 then true else if b.1 < a.1 then false else le2 a.2 b.2

/-- Lexicographic comparison of quadruples of naturals. -/
def le4 (a b : Nat × Nat × Nat × Nat) : Bool :=
  if a.1 < b.1 then true else if b.1 < a.1 then false else le3 a.2 b.2

/-- Sort key of the Tier-1 per-group ordering (line 460):
`(_open_prio, _kalan_ok, _loom_no)`. -/
def b1_key (thr : Int) (x : RunRow) : Nat × Nat × Nat :=
  (open_prio x, kalan_ok thr x, loom_key x)

/-- Sort key of the Tier-2 ordering (lines 497-501): `(_kalan_ok, _loom_no)`. -/
def b2_key (thr : Int) (x : RunRow) : Nat × Nat :=
  (kalan_ok thr x, loom_key x)

/-- Sort key of the final candidate ordering (lines 528-529):
`(_bucket, _open_prio, _kalan_ok, _loom_no)`. -/
def final_key (thr : Int) (p : RunRow × Nat) : Nat × Nat × Nat × Nat :=
  (p.2, open_prio p.1, kalan_ok thr p.1, loom_key p.1)

/-- Distinct nonempty normalised reed groups of the filtered table, in the
sorted order `pandas.groupby` iterates them (lines 433-440). -/
def tg_keys (r : List RunRow) : List String :=
  List.insertionSort (fun a b : String => charListLe a.data b.data = true)
    (((r.map fun x => x.tgNorm).dedup).filter fun s => s ≠ "")

/-- Tier-1 picking loop (lines 462-467): walk the sorted group, stop once
`extra` machines are picked, keep only viable ones. -/
def pick_viable (thr : Int) : Nat → List RunRow → List RunRow
  | _, [] => []
  | 0, _ :: _ => []
  | n + 1, x :: xs =>
      if viable thr x then x :: pick_viable thr n xs else pick_viable thr (n + 1) xs

/-- Model of `TezgahPicker._build_and_fill` (team_planning_flow.py, lines
402-563), returning the ordered candidate list as (row, tier) pairs.  The
inputs are the running table, the normalised reed groups of the job table,
the normalised target group, the target category ("denim" / "ham"), the
excluded machine numbers (blocked, dummy and externally excluded, merged as
in the constructor), and the yardage threshold. -/
def build_and_fill (run : List RunRow) (pjobs : List String) (targetTG grp : String)
    (ex : List Nat) (thr : Int) : List (RunRow × Nat) :=
  let r := run.filter fun x => loom_allowed (some x.tezgah) grp && !ex.contains x.tezgah
  let keys := tg_keys r
  let metr := fun tg => (jobs_total_for_tg pjobs tg, active_looms_for_tg run grp ex tg)
  let b0 := keys.filter fun tg => (metr tg).1 = 0
  let parts0 : List (List (RunRow × Nat)) :=
    if b0.isEmpty then []
    else [(r.filter fun x => b0.contains x.tgNorm).map fun x => (x, 0)]
  let parts1 : List (List (RunRow × Nat)) :=
    keys.filterMap fun tg =>
      let m := metr tg
      if m.1 > 0 && m.1 < m.2 then
        let sub := List.insertionSort
          (fun a b : RunRow => le3 (b1_key thr a) (b1_key thr b) = true)
          (r.filter fun x => x.tgNorm = tg)
        let picked := pick_viable thr (m.2 - m.1) sub
        if picked.isEmpty then none else some (picked.map fun x => (x, 1))
      else none
  let parts := parts0 ++ parts1
  let parts :=
    if parts.isEmpty then
      let same := r.filter fun x => x.tgNorm = targetTG
      if same.isEmpty then []
      else
        let same2 := same.filter (viable thr)
        if same2.isEmpty then []
        else
          [(List.insertionSort
              (fun a b : RunRow => le2 (b2_key thr a) (b2_key thr b) = true) same2).map
            fun x => (x, 2)]
    else parts
  let cand := parts.flatten
  let cand := cand.filter fun p => viable thr p.1
  let cand := cand.filter fun p => p.1.tgNorm ≠ targetTG
  List.insertionSort (fun a b : RunRow × Nat => le4 (final_key thr a) (final_key thr b) = true)
    cand

/-- Concrete fixture: an open machine of reed group "50/4/100", experience 0. -/
def mLow : RunRow := ⟨2201, "50/4/100", true, none, 0⟩

/-- Concrete fixture: an open machine of the same group with machine number
2202 and the higher experience count 5. -/
def mHigh : RunRow := ⟨2202, "50/4/100", true, none, 5⟩

end TPF

/-! ## General helper lemmas -/

theorem contains_iff {α : Type} [BEq α] [LawfulBEq α] (l : List α) (a : α) :
    l.contains a = true ↔ a ∈ l :=
  List.elem_iff

theorem contains_false_iff {α : Type} [BEq α] [LawfulBEq α] (l : List α) (a : α) :
    l.contains a = false ↔ a ∉ l := by
  rw [← contains_iff l a]
  cases l.contains a <;> simp

/-! ## Claim C2 — selvedge tolerance rule -/

/-- C2.  The automatic selvedge check accepts exactly as the claim states:
either stripped side empty, the stripped sides equal, or else both tooth
counts must parse and either both lie in the tolerant set `{8, 10, 18}` or
differ by at most 2; a failed parse rejects.  Both call sites pass
already-stripped strings, so the `sTrim` on the right is the identity on the
function's actual inputs. -/
theorem c2_selvedge_rule (jobSup loomSup : String) :
    selvedge_compatible_auto jobSup loomSup = selv_claim_chain (sTrim jobSup) (sTrim loomSup) := by
  unfold selvedge_compatible_auto selv_claim_chain
  by_cases h1 : sTrim jobSup = ""
  · simp [h1]
  · by_cases h2 : sTrim loomSup = ""
    · simp [h1, h2]
    · by_cases h3 : sTrim jobSup = sTrim loomSup
      · simp [h1, h2, h3]
      · cases he1 : extract_selv_teeth (sTrim jobSup) with
        | none => simp [h1, h2, h3, he1]
        | some a =>
            cases he2 : extract_selv_teeth (sTrim loomSup) with
            | none => simp [h1, h2, h3, he1, he2]
            | some b =>
                simp only [h1, h2, h3, he1, he2]
                by_cases hc : (specialTeeth.contains a && specialTeeth.contains b) = true <;>
                  simp [h1, h2, h3, hc]

/-! ## Claim C3 — machine-number eligibility -/

/-- C3.  Eligibility: a machine number of the fixed never-allowed set is
always refused; otherwise the raw (HAM) category accepts exactly the numbers
2447–2518 and any other category exactly the numbers 2201–2446; in
particular 2432 is refused for HAM, 2500 is accepted for HAM, and 2500 is
refused for DENIM. -/
theorem c3_eligibility :
    (∀ (n : Nat) (c : String), n ∈ NEVER → loom_in_category n c = false) ∧
    (∀ (n : Nat) (c : String), n ∉ NEVER → sToUpper c = "HAM" →
      loom_in_category n c = (decide (2447 ≤ n) && decide (n ≤ 2518))) ∧
    (∀ (n : Nat) (c : String), n ∉ NEVER → sToUpper c ≠ "HAM" →
      loom_in_category n c = (decide (2201 ≤ n) && decide (n ≤ 2446))) ∧
    loom_in_category 2432 "HAM" = false ∧
    loom_in_category 2500 "HAM" = true ∧
    loom_in_category 2500 "DENIM" = false := by
  refine ⟨?_, ?_, ?_, by decide, by decide, by decide⟩
  · intro n c hn
    have hc : NEVER.contains n = true := (contains_iff _ _).mpr hn
    unfold loom_in_category
    rw [hc, if_pos rfl]
  · intro n c hn hham
    have hc : NEVER.contains n = false := (contains_false_iff _ _).mpr hn
    unfold loom_in_category
    rw [hc, hham]
    simp
  · intro n c hn hham
    have hc : NEVER.contains n = false := (contains_false_iff _ _).mpr hn
    unfold loom_in_category
    rw [hc, if_neg (by simp), if_neg hham]

/-- Witness for C3 at concrete inputs: 2447 is outside the never-allowed set
and accepted for HAM, 2300 is outside it and accepted for DENIM. -/
theorem c3_eligibility_witness :
    loom_in_category 2447 "HAM" = true ∧ loom_in_category 2300 "DENIM" = true := by
  constructor
  · exact (c3_eligibility.2.1 2447 "HAM" (by decide) (by decide)).trans (by decide)
  · exact (c3_eligibility.2.2.1 2300 "DENIM" (by decide) (by decide)).trans (by decide)

/-! ## Claims C8 and C9 — tiered candidate builder -/

theorem le2_iff (a b : Nat × Nat) :
    TPF.le2 a b = true ↔ a.1 < b.1 ∨ (a.1 = b.1 ∧ a.2 ≤ b.2) := by
  unfold TPF.le2
  split_ifs with h1 h2 <;> simp <;> omega

theorem le3_iff (a b : Nat × Nat × Nat) :
    TPF.le3 a b = true ↔
      a.1 < b.1 ∨ (a.1 = b.1 ∧ (a.2.1 < b.2.1 ∨ (a.2.1 = b.2.1 ∧ a.2.2 ≤ b.2.2))) := by
  unfold TPF.le3
  split_ifs with h1 h2 <;> simp [le2_iff] <;> omega

theorem le4_iff (a b : Nat × Nat × Nat × Nat) :
    TPF.le4 a b = true ↔
      a.1 < b.1 ∨ (a.1 = b.1 ∧ (a.2.1 < b.2.1 ∨ (a.2.1 = b.2.1 ∧
        (a.2.2.1 < b.2.2.1 ∨ (a.2.2.1 = b.2.2.1 ∧ a.2.2.2 ≤ b.2.2.2))))) := by
  unfold TPF.le4
  split_ifs with h1 h2 <;> simp [le3_iff] <;> omega

theorem le4_total (a b : Nat × Nat × Nat × Nat) : TPF.le4 a b = true ∨ TPF.le4 b a = true := by
  rw [le4_iff, le4_iff]
  omega

theorem le4_trans (a b c : Nat × Nat × Nat × Nat) (h1 : TPF.le4 a b = true)
    (h2 : TPF.le4 b c = true) : TPF.le4 a c = true := by
  rw [le4_iff] at h1 h2 ⊢
  omega

/-- C9 (amended).  The candidate list of the picker is sorted by the key
(tier index, open machines first, within-threshold yardage first, machine
number ascending).  No experience-count tie-break exists: the builder reads
no experience column, so exact ties in tier and yardage are ordered by
machine number alone (see `c9_counterexample`). -/
theorem c9_candidate_order (run : List TPF.RunRow) (pjobs : List String)
    (targetTG grp : String) (ex : List Nat) (thr : Int) :
    List.Sorted (fun a b => TPF.le4 (TPF.final_key thr a) (TPF.final_key thr b) = true)
      (TPF.build_and_fill run pjobs targetTG grp ex thr) := by
  unfold TPF.build_and_fill
  haveI : IsTotal (TPF.RunRow × Nat)
      (fun a b => TPF.le4 (TPF.final_key thr a) (TPF.final_key thr b) = true) :=
    ⟨fun a b => le4_total _ _⟩
  haveI : IsTrans (TPF.RunRow × Nat)
      (fun a b => TPF.le4 (TPF.final_key thr a) (TPF.final_key thr b) = true) :=
    ⟨fun a b c => le4_trans _ _ _⟩
  exact List.sorted_insertionSort _ _

/-- Counterexample to C9 as stated: two open bucket-0 machines that tie
exactly in tier, open state and yardage come out ordered by ascending machine
number — machine 2201 with experience count 0 precedes machine 2202 with the
higher experience count 5, while the claim demands the higher-experience
machine first on such ties. -/
theorem c9_counterexample :
    TPF.build_and_fill [TPF.mHigh, TPF.mLow] [] "60/4/120" "denim" [] 300 =
      [(TPF.mLow, 0), (TPF.mHigh, 0)] ∧
    TPF.mLow.experienceCount < TPF.mHigh.experienceCount ∧
    TPF.mLow.openFlag = TPF.mHigh.openFlag ∧
    TPF.mLow.kalan = TPF.mHigh.kalan := by
  refine ⟨by decide, by decide, by decide, by decide⟩

/-- C8 (amended).  The final target-group filter of `_build_and_fill` applies
to every tier, Tier 2 included: no machine mounted with the target reed group
ever appears in the returned candidate list, so the list is empty whenever
Tiers 0 and 1 yield nothing. -/
theorem c8_no_target_group_candidates (run : List TPF.RunRow) (pjobs : List String)
    (targetTG grp : String) (ex : List Nat) (thr : Int) :
    ∀ p ∈ TPF.build_and_fill run pjobs targetTG grp ex thr, p.1.tgNorm ≠ targetTG := by
  intro p hp
  unfold TPF.build_and_fill at hp
  have hp2 := (List.perm_insertionSort _ _).mem_iff.mp hp
  exact of_decide_eq_true (List.mem_filter.mp hp2).2

/-- Witness for C8's amended theorem: the nonempty candidate list of the C9
fixture contains the bucket-0 entry of machine 2201, whose reed group indeed
differs from the target group. -/
theorem c8_no_target_group_candidates_witness : TPF.mLow.tgNorm ≠ "60/4/120" :=
  c8_no_target_group_candidates [TPF.mHigh, TPF.mLow] [] "60/4/120" "denim" [] 300
    (TPF.mLow, 0) (by decide)

/-- Counterexample to C8 as stated: a single open, eligible, non-excluded
machine is mounted with the target group itself, its group has a job backlog
(so Tier 0 is empty) and no group has excess machines (so Tier 1 is empty);
the claim demands a non-empty Tier-2 candidate list made of that machine, but
the builder returns the empty list — the final filter removes target-group
machines from Tier 2 as well. -/
theorem c8_counterexample :
    loom_allowed (some TPF.mLow.tezgah) "denim" = true ∧
    TPF.mLow.tgNorm = "50/4/100" ∧
    TPF.mLow.openFlag = true ∧
    TPF.jobs_total_for_tg ["50/4/100"] "50/4/100" = 1 ∧
    TPF.active_looms_for_tg [TPF.mLow] "denim" [] "50/4/100" = 1 ∧
    TPF.build_and_fill [TPF.mLow] ["50/4/100"] "50/4/100" "denim" [] 300 = [] := by
  refine ⟨by decide, by decide, by decide, by decide, by decide, by decide⟩

/-! ## Basic lemmas about the planning-dialog model -/

namespace PD

theorem head_mem {α : Type} {l : List α} {a : α} (h : l.head? = some a) : a ∈ l := by
  cases l with
  | nil => cases h
  | cons x t =>
      rw [List.head?_cons, Option.some.injEq] at h
      rw [← h]
      exact List.mem_cons_self x t

theorem mem_select_candidates {jobs : List Job} {key category : String} {j : Job} :
    j ∈ select_candidates jobs key category ↔ j ∈ jobs ∧ job_mask key category j = true := by
  unfold select_candidates
  rw [(List.perm_insertionSort _ _).mem_iff, List.mem_filter]

theorem mask_unassigned {key category : String} {j : Job}
    (h : job_mask key category j = true) : j.tezgahNumarasi = none := by
  simp only [job_mask, Bool.and_eq_true] at h
  exact Option.isNone_iff_eq_none.mp h.1.2

theorem set_assign_cons (a : Job) (t : List Job) (i : Nat) (v : Assign) :
    set_assign (a :: t) i v =
      (if a.id = i then { a with tezgahNumarasi := some v } else a) :: set_assign t i v := rfl

theorem set_assign_length (jobs : List Job) (i : Nat) (v : Assign) :
    (set_assign jobs i v).length = jobs.length := by
  simp [set_assign]

theorem set_assign_map_id (jobs : List Job) (i : Nat) (v : Assign) :
    (set_assign jobs i v).map Job.id = jobs.map Job.id := by
  unfold set_assign
  rw [List.map_map]
  apply List.map_congr_left
  intro j _
  by_cases h : j.id = i <;> simp [h]

theorem set_assign_of_not_mem {jobs : List Job} {i : Nat} {v : Assign}
    (h : i ∉ jobs.map Job.id) : set_assign jobs i v = jobs := by
  induction jobs with
  | nil => rfl
  | cons a t ih =>
      rw [List.map_cons, List.mem_cons] at h
      push_neg at h
      rw [set_assign_cons, if_neg (fun he => h.1 he.symm), ih h.2]

theorem assigned_looms_cons (a : Job) (t : List Job) :
    assigned_looms (a :: t) =
      (match a.tezgahNumarasi with
       | some (Assign.loom n) => n :: assigned_looms t
       | _ => assigned_looms t) := by
  unfold assigned_looms
  rw [List.filterMap_cons]
  cases h : a.tezgahNumarasi with
  | none => simp
  | some v => cases v <;> simp

theorem assigned_set_atla {jobs : List Job} {j : Job}
    (hN : (jobs.map Job.id).Nodup) (hj : j ∈ jobs) (hun : j.tezgahNumarasi = none) :
    assigned_looms (set_assign jobs j.id Assign.atla) = assigned_looms jobs := by
  induction jobs with
  | nil => cases hj
  | cons a t ih =>
      rw [List.map_cons, List.nodup_cons] at hN
      obtain ⟨hnotin, hNt⟩ := hN
      rcases List.mem_cons.mp hj with rfl | hjt
      · rw [set_assign_cons, if_pos rfl, set_assign_of_not_mem hnotin,
          assigned_looms_cons, assigned_looms_cons, hun]
      · have hne : a.id ≠ j.id := fun he =>
          hnotin (he ▸ List.mem_map.mpr ⟨j, hjt, rfl⟩)
        rw [set_assign_cons, if_neg hne, assigned_looms_cons, assigned_looms_cons,
          ih hNt hjt]

theorem assigned_mem_set_loom {jobs : List Job} {j : Job} {n : Nat}
    (hN : (jobs.map Job.id).Nodup) (hj : j ∈ jobs) (hun : j.tezgahNumarasi = none)
    (x : Nat) :
    x ∈ assigned_looms (set_assign jobs j.id (Assign.loom n)) ↔
      x ∈ assigned_looms jobs ∨ x = n := by
  induction jobs with
  | nil => cases hj
  | cons a t ih =>
      rw [List.map_cons, List.nodup_cons] at hN
      obtain ⟨hnotin, hNt⟩ := hN
      rcases List.mem_cons.mp hj with rfl | hjt
      · rw [set_assign_cons, if_pos rfl, set_assign_of_not_mem hnotin,
          assigned_looms_cons, assigned_looms_cons, hun]
        simp [List.mem_cons]
        tauto
      · have hne : a.id ≠ j.id := fun he =>
          hnotin (he ▸ List.mem_map.mpr ⟨j, hjt, rfl⟩)
        rw [set_assign_cons, if_neg hne, assigned_looms_cons, assigned_looms_cons]
        cases hv : a.tezgahNumarasi with
        | none => exact ih hNt hjt
        | some w =>
            cases w with
            | loom m => simp [List.mem_cons, ih hNt hjt]; tauto
            | atla => exact ih hNt hjt

theorem filter_set_assign_eq {jobs : List Job} {j : Job} {v : Assign} {P : Job → Bool}
    (hN : (jobs.map Job.id).Nodup) (hj : j ∈ jobs)
    (h1 : P j = false) (h2 : P { j with tezgahNumarasi := some v } = false) :
    (set_assign jobs j.id v).filter P = jobs.filter P := by
  induction jobs with
  | nil => cases hj
  | cons a t ih =>
      rw [List.map_cons, List.nodup_cons] at hN
      obtain ⟨hnotin, hNt⟩ := hN
      rcases List.mem_cons.mp hj with rfl | hjt
      · rw [set_assign_cons, if_pos rfl, set_assign_of_not_mem hnotin,
          List.filter_cons, List.filter_cons, h1, h2]
        simp
      · have hne : a.id ≠ j.id := fun he =>
          hnotin (he ▸ List.mem_map.mpr ⟨j, hjt, rfl⟩)
        rw [set_assign_cons, if_neg hne, List.filter_cons, List.filter_cons, ih hNt hjt]

theorem length_filter_set_assign_sub {jobs : List Job} {j : Job} {v : Assign} {P : Job → Bool}
    (hN : (jobs.map Job.id).Nodup) (hj : j ∈ jobs)
    (h1 : P j = true) (h2 : P { j with tezgahNumarasi := some v } = false) :
    ((set_assign jobs j.id v).filter P).length + 1 = (jobs.filter P).length := by
  induction jobs with
  | nil => cases hj
  | cons a t ih =>
      rw [List.map_cons, List.nodup_cons] at hN
      obtain ⟨hnotin, hNt⟩ := hN
      rcases List.mem_cons.mp hj with rfl | hjt
      · rw [set_assign_cons, if_pos rfl, set_assign_of_not_mem hnotin,
          List.filter_cons, List.filter_cons, h1, h2]
        simp
      · have hne : a.id ≠ j.id := fun he =>
          hnotin (he ▸ List.mem_map.mpr ⟨j, hjt, rfl⟩)
        rw [set_assign_cons, if_neg hne, List.filter_cons, List.filter_cons]
        have hih := ih hNt hjt
        by_cases hPa : P a = true
        · simp [hPa]
          omega
        · simp [hPa]
          omega

theorem length_filter_set_assign_add {jobs : List Job} {j : Job} {v : Assign} {P : Job → Bool}
    (hN : (jobs.map Job.id).Nodup) (hj : j ∈ jobs)
    (h1 : P j = false) (h2 : P { j with tezgahNumarasi := some v } = true) :
    ((set_assign jobs j.id v).filter P).length = (jobs.filter P).length + 1 := by
  induction jobs with
  | nil => cases hj
  | cons a t ih =>
      rw [List.map_cons, List.nodup_cons] at hN
      obtain ⟨hnotin, hNt⟩ := hN
      rcases List.mem_cons.mp hj with rfl | hjt
      · rw [set_assign_cons, if_pos rfl, set_assign_of_not_mem hnotin,
          List.filter_cons, List.filter_cons, h1, h2]
        simp
      · have hne : a.id ≠ j.id := fun he =>
          hnotin (he ▸ List.mem_map.mpr ⟨j, hjt, rfl⟩)
        rw [set_assign_cons, if_neg hne, List.filter_cons, List.filter_cons]
        have hih := ih hNt hjt
        by_cases hPa : P a = true
        · simp [hPa]
          omega
        · simp [hPa]
          omega

theorem is_assigned_of_none {j : Job} (hun : j.tezgahNumarasi = none) :
    is_assigned j = false := by
  simp [is_assigned, hun]

theorem num_assigned_set_atla {jobs : List Job} {j : Job}
    (hN : (jobs.map Job.id).Nodup) (hj : j ∈ jobs) (hun : j.tezgahNumarasi = none) :
    num_assigned (set_assign jobs j.id Assign.atla) = num_assigned jobs := by
  unfold num_assigned
  rw [filter_set_assign_eq hN hj (is_assigned_of_none hun) (by simp [is_assigned])]

theorem num_assigned_set_loom {jobs : List Job} {j : Job} {n : Nat}
    (hN : (jobs.map Job.id).Nodup) (hj : j ∈ jobs) (hun : j.tezgahNumarasi = none) :
    num_assigned (set_assign jobs j.id (Assign.loom n)) = num_assigned jobs + 1 := by
  unfold num_assigned
  rw [length_filter_set_assign_add hN hj (is_assigned_of_none hun) (by simp [is_assigned])]

theorem job_mask_updated_false (key category : String) (j : Job) (v : Assign) :
    job_mask key category { j with tezgahNumarasi := some v } = false := by
  simp [job_mask]

theorem select_candidates_set_length {jobs : List Job} {j : Job} {key category : String}
    {v : Assign} (hN : (jobs.map Job.id).Nodup) (hj : j ∈ jobs)
    (hm : job_mask key category j = true) :
    (select_candidates (set_assign jobs j.id v) key category).length + 1 =
      (select_candidates jobs key category).length := by
  unfold select_candidates
  rw [(List.perm_insertionSort _ _).length_eq, (List.perm_insertionSort _ _).length_eq]
  exact length_filter_set_assign_sub hN hj hm (job_mask_updated_false key category j v)

theorem select_candidates_set_eq {jobs : List Job} {j : Job} {key2 cat2 : String}
    {v : Assign} (hN : (jobs.map Job.id).Nodup) (hj : j ∈ jobs)
    (hm : job_mask key2 cat2 j = false) :
    select_candidates (set_assign jobs j.id v) key2 cat2 =
      select_candidates jobs key2 cat2 := by
  unfold select_candidates
  rw [filter_set_assign_eq hN hj hm (job_mask_updated_false key2 cat2 j v)]

theorem cat_mask_flip {c1 c2 : String} (h : catIsHam c1 ≠ catIsHam c2) (j : Job) :
    cat_mask c1 j = !cat_mask c2 j := by
  unfold cat_mask
  cases h1 : catIsHam c1 <;> cases h2 : catIsHam c2 <;> simp_all

theorem mask_disjoint {key category key2 cat2 : String} {j : Job}
    (hm : job_mask key category j = true)
    (hd : ¬(key2 = key ∧ catIsHam cat2 = catIsHam category)) :
    job_mask key2 cat2 j = false := by
  simp only [job_mask, Bool.and_eq_true, decide_eq_true_eq] at hm
  obtain ⟨⟨⟨hkey, _⟩, _⟩, hcatm⟩ := hm
  by_cases hk : key2 = key
  · have hc : catIsHam cat2 ≠ catIsHam category := fun hcc => hd ⟨hk, hcc⟩
    have hflip : cat_mask cat2 j = false := by
      rw [cat_mask_flip hc, hcatm]
      rfl
    simp [job_mask, hflip]
  · have hne : j.tarakKey ≠ key2 := fun he => hk (he ▸ hkey.symm ▸ rfl)
    simp [job_mask, hne]

theorem mem_load_looms_iff {jobs : List Job} {df_looms : List Loom}
    {key category : String} {blocked dummy : List Nat} {thr : Int} {lv : LoomView} :
    lv ∈ load_looms jobs df_looms key category blocked dummy thr ↔
      ∃ l : Loom, l ∈ df_looms ∧ l.tarakKey = key ∧
        allowed_loom jobs blocked dummy category l = true ∧
        (l.openFlag = true ∨ soon_loom thr l = true) ∧
        lv = ⟨l.tezgahNo, sTrim l.susKenar, sTrim l.orgu⟩ := by
  unfold load_looms
  rw [List.mem_map]
  constructor
  · rintro ⟨l, hl, rfl⟩
    rcases List.mem_append.mp hl with h | h
    · have h1 := (List.perm_insertionSort _ _).mem_iff.mp h
      have h2 := List.mem_filter.mp h1
      have h3 := List.mem_filter.mp h2.1
      have h4 := List.mem_filter.mp h3.1
      exact ⟨l, h4.1, of_decide_eq_true h4.2, h3.2, Or.inl h2.2, rfl⟩
    · have h1 := (List.perm_insertionSort _ _).mem_iff.mp h
      have h2 := List.mem_filter.mp h1
      have h3 := List.mem_filter.mp h2.1
      have h4 := List.mem_filter.mp h3.1
      exact ⟨l, h4.1, of_decide_eq_true h4.2, h3.2, Or.inr h2.2, rfl⟩
  · rintro ⟨l, hdf, hkey, hall, hvia, rfl⟩
    refine ⟨l, ?_, rfl⟩
    rcases hvia with h | h
    · refine List.mem_append.mpr (Or.inl ?_)
      refine (List.perm_insertionSort _ _).mem_iff.mpr ?_
      exact List.mem_filter.mpr
        ⟨List.mem_filter.mpr ⟨List.mem_filter.mpr ⟨hdf, by simp [hkey]⟩, hall⟩, h⟩
    · refine List.mem_append.mpr (Or.inr ?_)
      refine (List.perm_insertionSort _ _).mem_iff.mpr ?_
      exact List.mem_filter.mpr
        ⟨List.mem_filter.mpr ⟨List.mem_filter.mpr ⟨hdf, by simp [hkey]⟩, hall⟩, h⟩

theorem load_looms_antitone {s t : List Job} {df_looms : List Loom}
    {key category : String} {blocked dummy : List Nat} {thr : Int} {lv : LoomView}
    (hmono : ∀ x ∈ assigned_looms s, x ∈ assigned_looms t)
    (hlv : lv ∈ load_looms t df_looms key category blocked dummy thr) :
    lv ∈ load_looms s df_looms key category blocked dummy thr := by
  obtain ⟨l, hdf, hkey, hall, hvia, rfl⟩ := mem_load_looms_iff.mp hlv
  refine mem_load_looms_iff.mpr ⟨l, hdf, hkey, ?_, hvia, rfl⟩
  simp only [allowed_loom, Bool.and_eq_true] at hall ⊢
  refine ⟨⟨⟨hall.1.1.1, hall.1.1.2⟩, hall.1.2⟩, ?_⟩
  have ht : l.tezgahNo ∉ assigned_looms t := by
    have := hall.2
    rw [Bool.not_eq_true', contains_false_iff] at this
    exact this
  have hs : l.tezgahNo ∉ assigned_looms s := fun hx => ht (hmono _ hx)
  rw [Bool.not_eq_true', contains_false_iff]
  exact hs

theorem load_looms_fresh {jobs : List Job} {df_looms : List Loom}
    {key category : String} {blocked dummy : List Nat} {thr : Int} {lv : LoomView}
    (hlv : lv ∈ load_looms jobs df_looms key category blocked dummy thr) :
    (assigned_looms jobs).contains lv.tezgah = false := by
  obtain ⟨l, _, _, hall, _, rfl⟩ := mem_load_looms_iff.mp hlv
  simp only [allowed_loom, Bool.and_eq_true] at hall
  have := hall.2
  rw [Bool.not_eq_true'] at this
  exact this

theorem group_labels_set_assign (jobs : List Job) (i : Nat) (v : Assign) (c : String) :
    group_labels (set_assign jobs i v) c = group_labels jobs c := by
  unfold group_labels
  congr 2
  induction jobs with
  | nil => rfl
  | cons a t ih =>
      rw [set_assign_cons, List.filter_cons, List.filter_cons]
      by_cases ha : a.id = i <;>
        by_cases hPa : (a.leventHasDigits && decide (a.dyeCategory = c)) = true <;>
        simp [ha, hPa, ih]

theorem set_assign_getD (jobs : List Job) (i : Nat) (v : Assign) (p : Nat)
    (hp : p < jobs.length) :
    (set_assign jobs i v).getD p defaultJob =
      (if (jobs.getD p defaultJob).id = i
       then { jobs.getD p defaultJob with tezgahNumarasi := some v }
       else jobs.getD p defaultJob) := by
  unfold set_assign
  have hp2 : p < (jobs.map
      (fun j => if j.id = i then { j with tezgahNumarasi := some v } else j)).length := by
    simpa using hp
  rw [List.getD_eq_getElem _ _ hp2, List.getD_eq_getElem _ _ hp]
  simp

theorem getD_mem {l : List Job} {p : Nat} (hp : p < l.length) :
    l.getD p defaultJob ∈ l := by
  rw [List.getD_eq_getElem _ _ hp]
  exact List.getElem_mem hp

theorem mem_getD {l : List Job} {j : Job} (hj : j ∈ l) :
    ∃ p, p < l.length ∧ l.getD p defaultJob = j := by
  obtain ⟨⟨p, hp⟩, he⟩ := List.mem_iff_get.mp hj
  exact ⟨p, hp, by rw [List.getD_eq_getElem _ _ hp]; exact he⟩

theorem getD_id_inj {jobs : List Job} (hN : (jobs.map Job.id).Nodup) {p q : Nat}
    (hp : p < jobs.length) (hq : q < jobs.length)
    (h : (jobs.getD p defaultJob).id = (jobs.getD q defaultJob).id) : p = q := by
  have hp' : p < (jobs.map Job.id).length := by simpa using hp
  have hq' : q < (jobs.map Job.id).length := by simpa using hq
  have hg : (jobs.map Job.id).get ⟨p, hp'⟩ = (jobs.map Job.id).get ⟨q, hq'⟩ := by
    rw [List.getD_eq_getElem _ _ hp, List.getD_eq_getElem _ _ hq] at h
    simpa using h
  have := (List.Nodup.get_inj_iff hN).mp hg
  exact congrArg Fin.val this

theorem current_key_set_assign (jobs : List Job) (i : Nat) (v : Assign) (lb : String) :
    current_key (set_assign jobs i v) lb = current_key jobs lb := by
  unfold current_key set_assign
  rw [List.find?_map]
  have hfe : ((fun j : Job => decide (j.tarakGrubu = lb)) ∘
      (fun j : Job => if j.id = i then { j with tezgahNumarasi := some v } else j)) =
      fun j : Job => decide (j.tarakGrubu = lb) := by
    funext j
    by_cases h : j.id = i <;> simp [h]
  rw [hfe]
  cases h : jobs.find? (fun j => decide (j.tarakGrubu = lb)) with
  | none => rfl
  | some j =>
      simp only [Option.map_some]
      by_cases hh : j.id = i <;> simp [hh]

/-! ## The step relation of the automatic run -/

theorem runstep_map_id {a b : List Job} (hs : RunStep a b) :
    b.map Job.id = a.map Job.id := by
  cases hs <;> apply set_assign_map_id

theorem runstep_cases {b c : List Job} (hs : RunStep b c) (hN : (b.map Job.id).Nodup) :
    c.length = b.length ∧ ∃ p, p < b.length ∧
      (b.getD p defaultJob).tezgahNumarasi = none ∧
      (∀ q, q < b.length → q ≠ p → c.getD q defaultJob = b.getD q defaultJob) ∧
      ((c.getD p defaultJob).tezgahNumarasi = some Assign.atla ∨
        ∃ n, (c.getD p defaultJob).tezgahNumarasi = some (Assign.loom n) ∧
          (assigned_looms b).contains n = false) := by
  cases hs with
  | skip j hj hun =>
      obtain ⟨p, hp, hpj⟩ := mem_getD hj
      refine ⟨set_assign_length _ _ _, p, hp, by rw [hpj]; exact hun, ?_, ?_⟩
      · intro q hq hqp
        have hne : (b.getD q defaultJob).id ≠ j.id := by
          intro he
          exact hqp (getD_id_inj hN hq hp (by rw [hpj]; exact he))
        rw [set_assign_getD _ _ _ q hq, if_neg hne]
      · left
        rw [set_assign_getD _ _ _ p hp, hpj, if_pos rfl]
  | assign j n hj hun hfresh =>
      obtain ⟨p, hp, hpj⟩ := mem_getD hj
      refine ⟨set_assign_length _ _ _, p, hp, by rw [hpj]; exact hun, ?_, ?_⟩
      · intro q hq hqp
        have hne : (b.getD q defaultJob).id ≠ j.id := by
          intro he
          exact hqp (getD_id_inj hN hq hp (by rw [hpj]; exact he))
        rw [set_assign_getD _ _ _ q hq, if_neg hne]
      · right
        refine ⟨n, ?_, hfresh⟩
        rw [set_assign_getD _ _ _ p hp, hpj, if_pos rfl]

theorem reach_map_id {a b : List Job} (h : RunReach a b) :
    b.map Job.id = a.map Job.id := by
  induction h with
  | refl => rfl
  | tail _ hbc ih => rw [runstep_map_id hbc, ih]

theorem reach_length {a b : List Job} (h : RunReach a b) : b.length = a.length := by
  have := congrArg List.length (reach_map_id h)
  simpa using this

theorem reach_nodup {a b : List Job} (h : RunReach a b)
    (hN : (a.map Job.id).Nodup) : (b.map Job.id).Nodup := by
  rw [reach_map_id h]
  exact hN

theorem reach_preserves_assigned {a b : List Job} (h : RunReach a b)
    (hN : (a.map Job.id).Nodup) :
    ∀ p, p < a.length → ∀ v, (a.getD p defaultJob).tezgahNumarasi = some v →
      (b.getD p defaultJob).tezgahNumarasi = some v := by
  induction h with
  | refl => exact fun p _ v hv => hv
  | tail hab hbc ih =>
      intro p hp v hv
      have hNb := reach_nodup hab hN
      obtain ⟨_, q0, hq0, hq0un, hother, _⟩ := runstep_cases hbc hNb
      have hpb : p < _ := (reach_length hab) ▸ hp
      by_cases hpq : p = q0
      · rw [← hpq] at hq0un
        rw [ih p hp v hv] at hq0un
        cases hq0un
      · rw [hother p hpb hpq]
        exact ih p hp v hv

theorem reach_assigned_mono {a b : List Job} (h : RunReach a b)
    (hN : (a.map Job.id).Nodup) :
    ∀ x ∈ assigned_looms a, x ∈ assigned_looms b := by
  induction h with
  | refl => exact fun x hx => hx
  | tail hab hbc ih =>
      intro x hx
      have hNb := reach_nodup hab hN
      cases hbc with
      | skip j hj hun =>
          rw [assigned_set_atla hNb hj hun]
          exact ih x hx
      | assign j n hj hun hfresh =>
          exact (assigned_mem_set_loom hNb hj hun x).mpr (Or.inl (ih x hx))

theorem getD_assigned_mem {jobs : List Job} {p : Nat} (hp : p < jobs.length) {n : Nat}
    (h : (jobs.getD p defaultJob).tezgahNumarasi = some (Assign.loom n)) :
    n ∈ assigned_looms jobs := by
  exact List.mem_filterMap.mpr ⟨jobs.getD p defaultJob, getD_mem hp, by rw [h]⟩

theorem reach_no_double {a b : List Job} (h : RunReach a b)
    (hN : (a.map Job.id).Nodup) :
    ∀ p q, p < a.length → q < a.length → p ≠ q →
      (a.getD p defaultJob).tezgahNumarasi = none →
      (a.getD q defaultJob).tezgahNumarasi = none →
      ∀ n1 n2, (b.getD p defaultJob).tezgahNumarasi = some (Assign.loom n1) →
        (b.getD q defaultJob).tezgahNumarasi = some (Assign.loom n2) → n1 ≠ n2 := by
  induction h with
  | refl =>
      intro p q _ _ _ hup _ n1 n2 h1 _
      rw [hup] at h1
      cases h1
  | tail hab hbc ih =>
      intro p q hp hq hpq hup huq n1 n2 h1 h2
      have hNb := reach_nodup hab hN
      obtain ⟨_, p0, hp0, hp0un, hother, hp0new⟩ := runstep_cases hbc hNb
      have hpb : p < _ := (reach_length hab) ▸ hp
      have hqb : q < _ := (reach_length hab) ▸ hq
      by_cases hpp0 : p = p0
      · subst hpp0
        rcases hp0new with hatla | ⟨n, hn, hfresh⟩
        · rw [h1] at hatla
          cases hatla
        · rw [h1] at hn
          injection hn with hn
          injection hn with hn
          subst hn
          rw [hother q hqb (fun he => hpq he.symm)] at h2
          have hmem : n2 ∈ assigned_looms _ := getD_assigned_mem hqb h2
          intro hcontra
          rw [contains_false_iff] at hfresh
          exact hfresh (by rw [hcontra]; exact hmem)
      · by_cases hqp0 : q = p0
        · subst hqp0
          rcases hp0new with hatla | ⟨n, hn, hfresh⟩
          · rw [h2] at hatla
            cases hatla
          · rw [h2] at hn
            injection hn with hn
            injection hn with hn
            subst hn
            rw [hother p hpb hpp0] at h1
            have hmem : n1 ∈ assigned_looms _ := getD_assigned_mem hpb h1
            intro hcontra
            rw [contains_false_iff] at hfresh
            exact hfresh (by rw [← hcontra]; exact hmem)
        · rw [hother p hpb hpp0] at h1
          rw [hother q hqb hqp0] at h2
          exact ih p q hp hq hpq hup huq n1 n2 h1 h2

/-! ## Shape lemmas about the automatic assignment primitives -/

theorem afja_cases {jobs : List Job} {key category : String} {loomNo : Nat}
    {sup orgu : String} {rm : Bool} {jobs1 : List Job}
    (h : assign_first_job_auto jobs key category loomNo sup orgu = (true, rm, jobs1)) :
    ∃ j, (select_candidates jobs key category).head? = some j ∧ j ∈ jobs ∧
      job_mask key category j = true ∧ j.tezgahNumarasi = none ∧
      ((rm = false ∧ note_triggers j.notlar = true ∧
          jobs1 = set_assign jobs j.id Assign.atla) ∨
        (rm = true ∧ jobs1 = set_assign jobs j.id (Assign.loom loomNo))) := by
  unfold assign_first_job_auto at h
  split at h
  · simp at h
  · rename_i j hh
    have hjm := mem_select_candidates.mp (head_mem hh)
    refine ⟨j, hh, hjm.1, hjm.2, mask_unassigned hjm.2, ?_⟩
    split_ifs at h with hnote h1 h2
    · simp only [Prod.mk.injEq] at h
      exact Or.inl ⟨h.2.1.symm, hnote, h.2.2.symm⟩
    · simp at h
    · simp at h
    · simp only [Prod.mk.injEq] at h
      exact Or.inr ⟨h.2.1.symm, h.2.2.symm⟩

theorem afja_fst_congr {s t : List Job} {key category : String}
    (hc : select_candidates t key category = select_candidates s key category)
    (loomNo : Nat) (sup orgu : String) :
    (assign_first_job_auto t key category loomNo sup orgu).1 =
      (assign_first_job_auto s key category loomNo sup orgu).1 := by
  unfold assign_first_job_auto
  rw [hc]
  split
  · rfl
  · split_ifs <;> rfl

theorem try_looms_eq_some {jobs : List Job} {key category : String} :
    ∀ {L : List LoomView} {used : List Nat} {jobs1 : List Job} {r : Option Nat},
    try_looms jobs key category L used = some (jobs1, r) →
    ∃ lv ∈ L, used.contains lv.tezgah = false ∧
      ∃ rm, assign_first_job_auto jobs key category lv.tezgah lv.susKenar lv.orgu =
          (true, rm, jobs1) ∧
        r = (if rm then some lv.tezgah else none) := by
  intro L
  induction L with
  | nil => intro used jobs1 r h; cases h
  | cons lv rest ih =>
      intro used jobs1 r h
      unfold try_looms at h
      by_cases hu : used.contains lv.tezgah = true
      · rw [if_pos hu] at h
        obtain ⟨x, hx, hrest⟩ := ih h
        exact ⟨x, List.mem_cons_of_mem _ hx, hrest⟩
      · rw [if_neg hu] at h
        rcases ha : assign_first_job_auto jobs key category lv.tezgah lv.susKenar lv.orgu
          with ⟨ok, rm2, j2⟩
        rw [ha] at h
        cases ok with
        | true =>
            simp only [Option.some.injEq, Prod.mk.injEq] at h
            refine ⟨lv, List.mem_cons_self _ _, by simpa using hu, rm2, ?_, h.2.symm⟩
            rw [ha, h.1]
        | false =>
            obtain ⟨x, hx, hrest⟩ := ih h
            exact ⟨x, List.mem_cons_of_mem _ hx, hrest⟩

theorem try_looms_eq_none {jobs : List Job} {key category : String} :
    ∀ {L : List LoomView} {used : List Nat},
    try_looms jobs key category L used = none →
    ∀ lv ∈ L, used.contains lv.tezgah = true ∨
      (assign_first_job_auto jobs key category lv.tezgah lv.susKenar lv.orgu).1 = false := by
  intro L
  induction L with
  | nil => intro used _ lv hlv; cases hlv
  | cons lv0 rest ih =>
      intro used h lv hlv
      unfold try_looms at h
      by_cases hu : used.contains lv0.tezgah = true
      · rw [if_pos hu] at h
        rcases List.mem_cons.mp hlv with rfl | hlv2
        · exact Or.inl hu
        · exact ih h lv hlv2
      · rw [if_neg hu] at h
        rcases ha : assign_first_job_auto jobs key category lv0.tezgah lv0.susKenar lv0.orgu
          with ⟨ok, rm2, j2⟩
        rw [ha] at h
        cases ok with
        | true => cases h
        | false =>
            rcases List.mem_cons.mp hlv with rfl | hlv2
            · right; rw [ha]
            · exact ih h lv hlv2

theorem try_looms_none_of_fail {jobs : List Job} {key category : String} :
    ∀ {L : List LoomView} {used : List Nat},
    (∀ lv ∈ L,
      (assign_first_job_auto jobs key category lv.tezgah lv.susKenar lv.orgu).1 = false) →
    try_looms jobs key category L used = none := by
  intro L
  induction L with
  | nil => intro used _; rfl
  | cons lv0 rest ih =>
      intro used hall
      unfold try_looms
      by_cases hu : used.contains lv0.tezgah = true
      · rw [if_pos hu]
        exact ih fun lv hlv => hall lv (List.mem_cons_of_mem _ hlv)
      · rw [if_neg hu]
        rcases ha : assign_first_job_auto jobs key category lv0.tezgah lv0.susKenar lv0.orgu
          with ⟨ok, rm2, j2⟩
        have := hall lv0 (List.mem_cons_self _ _)
        rw [ha] at this
        cases ok with
        | true => cases this
        | false => exact ih fun lv hlv => hall lv (List.mem_cons_of_mem _ hlv)

/-! ## The loop invariant of the automatic group allocator -/

theorem auto_loop_spec (key category : String) (L : List LoomView) (jobs0 : List Job) :
    ∀ (fuel : Nat) (jobs : List Job) (used : List Nat) (count : Nat) (e : List Job) (c : Nat),
    auto_loop key category L fuel jobs used count = (e, c) →
    (jobs.map Job.id).Nodup →
    (select_candidates jobs key category).length < fuel →
    (∀ lv ∈ L, (assigned_looms jobs0).contains lv.tezgah = false) →
    (∀ x ∈ assigned_looms jobs, x ∈ assigned_looms jobs0 ∨ x ∈ used) →
    (∀ x ∈ used, x ∈ assigned_looms jobs) →
    RunReach jobs e ∧
    num_assigned e + count = num_assigned jobs + c ∧
    (select_candidates e key category = [] ∨
      (∀ lv ∈ L, lv.tezgah ∈ assigned_looms e ∨
        (assign_first_job_auto e key category lv.tezgah lv.susKenar lv.orgu).1 = false)) ∧
    (∀ key2 cat2, ¬(key2 = key ∧ catIsHam cat2 = catIsHam category) →
      select_candidates e key2 cat2 = select_candidates jobs key2 cat2) := by
  intro fuel
  induction fuel with
  | zero =>
      intro jobs used count e c _ _ hfuel _ _ _
      exact absurd hfuel (Nat.not_lt_zero _)
  | succ f ih =>
      intro jobs used count e c hrun hN hfuel hview hsub hused
      rw [auto_loop] at hrun
      by_cases hemp : (select_candidates jobs key category).isEmpty = true
      · rw [if_pos hemp] at hrun
        injection hrun with h1 h2
        subst h1
        subst h2
        exact ⟨Relation.ReflTransGen.refl, by omega, Or.inl (List.isEmpty_iff.mp hemp),
          fun _ _ _ => rfl⟩
      · rw [if_neg hemp] at hrun
        rcases htry : try_looms jobs key category L used with _ | ⟨jobs1, ropt⟩
        · rw [htry] at hrun
          injection hrun with h1 h2
          subst h1
          subst h2
          refine ⟨Relation.ReflTransGen.refl, by omega, Or.inr ?_, fun _ _ _ => rfl⟩
          intro lv hlv
          rcases try_looms_eq_none htry lv hlv with hu | hf
          · exact Or.inl (hused _ ((contains_iff _ _).mp hu))
          · exact Or.inr hf
        · rw [htry] at hrun
          obtain ⟨lv, hlvL, hlvused, rm, hafja, hr⟩ := try_looms_eq_some htry
          obtain ⟨j, hhead, hjmem, hjmask, hjun, hbranch⟩ := afja_cases hafja
          cases ropt with
          | some n =>
              rcases hbranch with ⟨hrm, _, _⟩ | ⟨hrm, heq⟩
              · rw [hrm] at hr
                simp at hr
              · rw [hrm] at hr
                simp only [if_pos rfl, Option.some.injEq, if_true] at hr
                have hr2 : n = lv.tezgah := by simpa using hr
                subst hr2
                subst heq
                have hrun2 :
                    auto_loop key category L f (set_assign jobs j.id (Assign.loom lv.tezgah))
                      (lv.tezgah :: used) (count + 1) = (e, c) := hrun
                have hfresh : (assigned_looms jobs).contains lv.tezgah = false := by
                  rw [contains_false_iff]
                  intro hmem
                  rcases hsub _ hmem with h0 | hu
                  · exact (contains_false_iff _ _).mp (hview lv hlvL) h0
                  · exact (contains_false_iff _ _).mp hlvused hu
                have hstep : RunStep jobs (set_assign jobs j.id (Assign.loom lv.tezgah)) :=
                  RunStep.assign jobs j lv.tezgah hjmem hjun hfresh
                have hN1 : ((set_assign jobs j.id (Assign.loom lv.tezgah)).map Job.id).Nodup := by
                  rw [set_assign_map_id]
                  exact hN
                have hlen := select_candidates_set_length (v := Assign.loom lv.tezgah) hN hjmem hjmask
                have hfuel1 : (select_candidates (set_assign jobs j.id (Assign.loom lv.tezgah))
                    key category).length < f := by omega
                have hsub1 : ∀ x ∈ assigned_looms (set_assign jobs j.id (Assign.loom lv.tezgah)),
                    x ∈ assigned_looms jobs0 ∨ x ∈ lv.tezgah :: used := by
                  intro x hx
                  rcases (assigned_mem_set_loom hN hjmem hjun x).mp hx with hx2 | hx2
                  · rcases hsub x hx2 with h0 | hu
                    · exact Or.inl h0
                    · exact Or.inr (List.mem_cons_of_mem _ hu)
                  · exact Or.inr (hx2 ▸ List.mem_cons_self _ _)
                have hused1 : ∀ x ∈ lv.tezgah :: used,
                    x ∈ assigned_looms (set_assign jobs j.id (Assign.loom lv.tezgah)) := by
                  intro x hx
                  rcases List.mem_cons.mp hx with rfl | hx2
                  · exact (assigned_mem_set_loom hN hjmem hjun _).mpr (Or.inr rfl)
                  · exact (assigned_mem_set_loom hN hjmem hjun _).mpr (Or.inl (hused _ hx2))
                obtain ⟨ihR, ihC, ihS, ihP⟩ := ih _ _ _ _ _ hrun2 hN1 hfuel1 hview hsub1 hused1
                refine ⟨Relation.ReflTransGen.head hstep ihR, ?_, ihS, ?_⟩
                · have hnum := num_assigned_set_loom (n := lv.tezgah) hN hjmem hjun
                  omega
                · intro key2 cat2 hd
                  rw [ihP key2 cat2 hd,
                    select_candidates_set_eq hN hjmem (mask_disjoint hjmask hd)]
          | none =>
              rcases hbranch with ⟨hrm, hnote, heq⟩ | ⟨hrm, heq⟩
              · subst heq
                have hrun2 :
                    auto_loop key category L f (set_assign jobs j.id Assign.atla)
                      used count = (e, c) := hrun
                have hstep : RunStep jobs (set_assign jobs j.id Assign.atla) :=
                  RunStep.skip jobs j hjmem hjun
                have hN1 : ((set_assign jobs j.id Assign.atla).map Job.id).Nodup := by
                  rw [set_assign_map_id]
                  exact hN
                have hlen := select_candidates_set_length (v := Assign.atla) hN hjmem hjmask
                have hfuel1 : (select_candidates (set_assign jobs j.id Assign.atla)
                    key category).length < f := by omega
                have hAeq := assigned_set_atla hN hjmem hjun
                have hsub1 : ∀ x ∈ assigned_looms (set_assign jobs j.id Assign.atla),
                    x ∈ assigned_looms jobs0 ∨ x ∈ used := by
                  intro x hx
                  rw [hAeq] at hx
                  exact hsub x hx
                have hused1 : ∀ x ∈ used,
                    x ∈ assigned_looms (set_assign jobs j.id Assign.atla) := by
                  intro x hx
                  rw [hAeq]
                  exact hused x hx
                obtain ⟨ihR, ihC, ihS, ihP⟩ := ih _ _ _ _ _ hrun2 hN1 hfuel1 hview hsub1 hused1
                refine ⟨Relation.ReflTransGen.head hstep ihR, ?_, ihS, ?_⟩
                · have hnum := num_assigned_set_atla hN hjmem hjun
                  omega
                · intro key2 cat2 hd
                  rw [ihP key2 cat2 hd,
                    select_candidates_set_eq hN hjmem (mask_disjoint hjmask hd)]
              · rw [hrm] at hr
                simp at hr

/-! ## Group-level and run-level specifications -/

theorem auto_group_spec {jobs : List Job} {df_looms : List Loom} {blocked dummy : List Nat}
    {thr : Int} {key category : String} {e : List Job} {c : Nat}
    (hN : (jobs.map Job.id).Nodup)
    (h : auto_plan_for_group jobs df_looms blocked dummy thr key category = (e, c)) :
    RunReach jobs e ∧ num_assigned e = num_assigned jobs + c ∧
    Stuck e df_looms blocked dummy thr key category ∧
    (∀ key2 cat2, ¬(key2 = key ∧ catIsHam cat2 = catIsHam category) →
      select_candidates e key2 cat2 = select_candidates jobs key2 cat2) := by
  unfold auto_plan_for_group at h
  by_cases hk : key = ""
  · rw [if_pos hk] at h
    injection h with h1 h2
    subst h1
    subst h2
    exact ⟨Relation.ReflTransGen.refl, by omega, Or.inl hk, fun _ _ _ => rfl⟩
  · rw [if_neg hk] at h
    by_cases hle : (load_looms jobs df_looms key category blocked dummy thr).isEmpty = true
    · rw [if_pos hle] at h
      injection h with h1 h2
      subst h1
      subst h2
      exact ⟨Relation.ReflTransGen.refl, by omega,
        Or.inr (Or.inl (List.isEmpty_iff.mp hle)), fun _ _ _ => rfl⟩
    · rw [if_neg hle] at h
      obtain ⟨hR, hC, hS, hP⟩ := auto_loop_spec key category
        (load_looms jobs df_looms key category blocked dummy thr) jobs _ jobs [] 0 e c h hN
        (Nat.lt_succ_self _) (fun lv hlv => load_looms_fresh hlv)
        (fun x hx => Or.inl hx) (fun x hx => absurd hx (List.not_mem_nil x))
      refine ⟨hR, by omega, ?_, hP⟩
      rcases hS with hempty | hall
      · exact Or.inr (Or.inr (Or.inl hempty))
      · refine Or.inr (Or.inr (Or.inr ?_))
        intro lv hlv
        have hlv0 : lv ∈ load_looms jobs df_looms key category blocked dummy thr :=
          load_looms_antitone (reach_assigned_mono hR hN) hlv
        rcases hall lv hlv0 with hmem | hfail
        · exfalso
          have hfr := load_looms_fresh hlv
          rw [contains_false_iff] at hfr
          exact hfr hmem
        · exact hfail

theorem stuck_noop {s : List Job} {df_looms : List Loom} {blocked dummy : List Nat}
    {thr : Int} {key category : String}
    (hs : Stuck s df_looms blocked dummy thr key category) :
    auto_plan_for_group s df_looms blocked dummy thr key category = (s, 0) := by
  unfold auto_plan_for_group
  by_cases hk : key = ""
  · rw [if_pos hk]
  · rw [if_neg hk]
    by_cases hle : (load_looms s df_looms key category blocked dummy thr).isEmpty = true
    · rw [if_pos hle]
    · rw [if_neg hle]
      rcases hs with hk2 | hv | hc | hall
      · exact absurd hk2 hk
      · exact absurd (by rw [hv]; rfl) hle
      · rw [auto_loop, if_pos (by rw [hc]; rfl)]
      · rw [auto_loop]
        by_cases hemp : (select_candidates s key category).isEmpty = true
        · rw [if_pos hemp]
        · rw [if_neg hemp, try_looms_none_of_fail hall]

theorem stuck_stable {s t : List Job} {df_looms : List Loom} {blocked dummy : List Nat}
    {thr : Int} {key category : String}
    (hs : Stuck s df_looms blocked dummy thr key category)
    (hcands : select_candidates t key category = select_candidates s key category)
    (hmono : ∀ x ∈ assigned_looms s, x ∈ assigned_looms t) :
    Stuck t df_looms blocked dummy thr key category := by
  rcases hs with hk | hv | hc | hall
  · exact Or.inl hk
  · refine Or.inr (Or.inl ?_)
    rw [List.eq_nil_iff_forall_not_mem]
    intro lv hlv
    have hlv0 := load_looms_antitone hmono hlv
    rw [hv] at hlv0
    cases hlv0
  · exact Or.inr (Or.inr (Or.inl (by rw [hcands, hc])))
  · refine Or.inr (Or.inr (Or.inr ?_))
    intro lv hlv
    have hlv0 := load_looms_antitone hmono hlv
    rw [afja_fst_congr hcands]
    exact hall lv hlv0

theorem reach_current_key {a b : List Job} (h : RunReach a b) (lb : String) :
    current_key b lb = current_key a lb := by
  induction h with
  | refl => rfl
  | tail _ hbc ih =>
      cases hbc with
      | skip j hj hun => rw [current_key_set_assign]; exact ih
      | assign j n hj hun hf => rw [current_key_set_assign]; exact ih

theorem reach_group_labels {a b : List Job} (h : RunReach a b) (c : String) :
    group_labels b c = group_labels a c := by
  induction h with
  | refl => rfl
  | tail _ hbc ih =>
      cases hbc with
      | skip j hj hun => rw [group_labels_set_assign]; exact ih
      | assign j n hj hun hf => rw [group_labels_set_assign]; exact ih

theorem run_labels_spec (df_looms : List Loom) (blocked dummy : List Nat) (thr : Int)
    (category : String) :
    ∀ (lbs : List String) (jobs : List Job) (acc : Nat) (e : List Job) (c : Nat),
    run_labels df_looms blocked dummy thr category lbs jobs acc = (e, c) →
    (jobs.map Job.id).Nodup →
    RunReach jobs e ∧ num_assigned e + acc = num_assigned jobs + c ∧
    (∀ lb ∈ lbs, Stuck e df_looms blocked dummy thr (current_key e lb) category) ∧
    (∀ key2 cat2, (catIsHam cat2 ≠ catIsHam category ∨
        (∀ lb ∈ lbs, current_key jobs lb ≠ key2)) →
      select_candidates e key2 cat2 = select_candidates jobs key2 cat2) := by
  intro lbs
  induction lbs with
  | nil =>
      intro jobs acc e c h hN
      unfold run_labels at h
      injection h with h1 h2
      subst h1
      subst h2
      refine ⟨Relation.ReflTransGen.refl, by omega, ?_, ?_⟩
      · intro lb hlb
        cases hlb
      · intro _ _ _
        rfl
  | cons lb rest ih =>
      intro jobs acc e c h hN
      rw [run_labels] at h
      rcases hg : auto_plan_for_group jobs df_looms blocked dummy thr
          (current_key jobs lb) category with ⟨m, c1⟩
      rw [hg] at h
      have h2 : run_labels df_looms blocked dummy thr category rest m (acc + c1) = (e, c) := h
      obtain ⟨hR1, hC1, hS1, hP1⟩ := auto_group_spec hN hg
      have hNm : (m.map Job.id).Nodup := reach_nodup hR1 hN
      obtain ⟨hR2, hC2, hS2, hP2⟩ := ih m (acc + c1) e c h2 hNm
      have hckm : current_key m lb = current_key jobs lb := reach_current_key hR1 lb
      have hcke : current_key e lb = current_key jobs lb := by
        rw [reach_current_key hR2 lb, hckm]
      refine ⟨hR1.trans hR2, by omega, ?_, ?_⟩
      · intro lb2 hlb2
        rcases List.mem_cons.mp hlb2 with rfl | hmem
        · rw [hcke]
          by_cases hk2 : ∃ lb3 ∈ rest, current_key m lb3 = current_key jobs lb2
          · obtain ⟨lb3, hmem3, hkey3⟩ := hk2
            have := hS2 lb3 hmem3
            rw [reach_current_key hR2 lb3, hkey3] at this
            exact this
          · push_neg at hk2
            have hpres := hP2 (current_key jobs lb2) category (Or.inr hk2)
            exact stuck_stable hS1 hpres (reach_assigned_mono hR2 hNm)
        · exact hS2 lb2 hmem
      · intro key2 cat2 hd
        rcases hd with hcc | hkeys
        · rw [hP2 key2 cat2 (Or.inl hcc)]
          exact hP1 key2 cat2 fun hpair => hcc hpair.2
        · have hstep1 : select_candidates m key2 cat2 = select_candidates jobs key2 cat2 := by
            refine hP1 key2 cat2 fun hpair => ?_
            exact hkeys lb (List.mem_cons_self _ _) hpair.1.symm
          have hstep2 : select_candidates e key2 cat2 = select_candidates m key2 cat2 := by
            refine hP2 key2 cat2 (Or.inr ?_)
            intro lb3 hmem3
            rw [reach_current_key hR1 lb3]
            exact hkeys lb3 (List.mem_cons_of_mem _ hmem3)
          rw [hstep2, hstep1]

theorem run_labels_noop {df_looms : List Loom} {blocked dummy : List Nat} {thr : Int}
    {category : String} :
    ∀ (lbs : List String) (s : List Job) (acc : Nat),
    (∀ lb ∈ lbs, Stuck s df_looms blocked dummy thr (current_key s lb) category) →
    run_labels df_looms blocked dummy thr category lbs s acc = (s, acc) := by
  intro lbs
  induction lbs with
  | nil => intro s acc _; rfl
  | cons lb rest ih =>
      intro s acc hall
      rw [run_labels]
      have hg := stuck_noop (hall lb (List.mem_cons_self _ _))
      rw [hg]
      have hrest := ih s (acc + 0) fun lb2 hlb2 => hall lb2 (List.mem_cons_of_mem _ hlb2)
      simpa using hrest

theorem auto_all_spec {jobs : List Job} {df_looms : List Loom} {blocked dummy : List Nat}
    {thr : Int} {e : List Job} {t : Nat}
    (hN : (jobs.map Job.id).Nodup)
    (h : auto_plan_all_groups jobs df_looms blocked dummy thr = (e, t)) :
    RunReach jobs e ∧ num_assigned e = num_assigned jobs + t := by
  unfold auto_plan_all_groups at h
  rcases h1 : run_labels df_looms blocked dummy thr "DENIM" (group_labels jobs "DENIM") jobs 0
    with ⟨m, t1⟩
  rw [h1] at h
  have hA : (match run_labels df_looms blocked dummy thr "HAM" (group_labels jobs "HAM") m 0
      with
      | (jobs2, t2) => ((jobs2, t1 + t2) : List Job × Nat)) = (e, t) := h
  rcases h2 : run_labels df_looms blocked dummy thr "HAM" (group_labels jobs "HAM") m 0
    with ⟨e2, t2⟩
  rw [h2] at hA
  have h3 : ((e2, t1 + t2) : List Job × Nat) = (e, t) := hA
  injection h3 with he ht
  obtain ⟨hR1, hC1, _, _⟩ := run_labels_spec df_looms blocked dummy thr "DENIM"
    (group_labels jobs "DENIM") jobs 0 m t1 h1 hN
  obtain ⟨hR2, hC2, _, _⟩ := run_labels_spec df_looms blocked dummy thr "HAM"
    (group_labels jobs "HAM") m 0 e2 t2 h2 (reach_nodup hR1 hN)
  subst he
  constructor
  · exact hR1.trans hR2
  · omega

theorem set_assign_preserves_pos {jobs : List Job} {j : Job} {v : Assign}
    (hN : (jobs.map Job.id).Nodup) (hj : j ∈ jobs) (hun : j.tezgahNumarasi = none)
    (p : Nat) (hp : p < jobs.length) (w : Assign)
    (hw : (jobs.getD p defaultJob).tezgahNumarasi = some w) :
    ((set_assign jobs j.id v).getD p defaultJob).tezgahNumarasi = some w := by
  rw [set_assign_getD _ _ _ p hp]
  have hne : (jobs.getD p defaultJob).id ≠ j.id := by
    intro he
    obtain ⟨p0, hp0, hp0j⟩ := mem_getD hj
    have hpp : p = p0 := getD_id_inj hN hp hp0 (by rw [hp0j]; exact he)
    rw [hpp, hp0j, hun] at hw
    cases hw
  rw [if_neg hne]
  exact hw

theorem afj_manual_cases {jobs : List Job} {key category : String} {loomNo : Nat}
    {sup orgu : String} {d1 d2 d3 : Decision} {ok rm : Bool} {out : List Job}
    (h : assign_first_job jobs key category loomNo sup orgu d1 d2 d3 = (ok, rm, out)) :
    out = jobs ∨ ∃ j, (select_candidates jobs key category).head? = some j ∧ j ∈ jobs ∧
      j.tezgahNumarasi = none ∧ ∃ v, out = set_assign jobs j.id v := by
  unfold assign_first_job at h
  split at h
  · simp only [Prod.mk.injEq] at h
    exact Or.inl h.2.2.symm
  · rename_i j hh
    have hjm := mem_select_candidates.mp (head_mem hh)
    have hun := mask_unassigned hjm.2
    split_ifs at h <;> simp only [Prod.mk.injEq] at h
    · exact Or.inr ⟨j, hh, hjm.1, hun, Assign.atla, h.2.2.symm⟩
    · exact Or.inr ⟨j, hh, hjm.1, hun, Assign.atla, h.2.2.symm⟩
    · exact Or.inl h.2.2.symm
    · exact Or.inr ⟨j, hh, hjm.1, hun, Assign.atla, h.2.2.symm⟩
    · exact Or.inl h.2.2.symm
    · exact Or.inr ⟨j, hh, hjm.1, hun, Assign.loom loomNo, h.2.2.symm⟩

theorem auto_loop_fuel_invariant (key category : String) (L : List LoomView) :
    ∀ (fuel1 fuel2 : Nat) (jobs : List Job) (used : List Nat) (count : Nat),
    (jobs.map Job.id).Nodup →
    (select_candidates jobs key category).length < fuel1 →
    (select_candidates jobs key category).length < fuel2 →
    auto_loop key category L fuel1 jobs used count =
      auto_loop key category L fuel2 jobs used count := by
  intro fuel1
  induction fuel1 with
  | zero =>
      intro fuel2 jobs used count _ h1 _
      exact absurd h1 (Nat.not_lt_zero _)
  | succ f1 ih =>
      intro fuel2 jobs used count hN h1 h2
      cases fuel2 with
      | zero => exact absurd h2 (Nat.not_lt_zero _)
      | succ f2 =>
          rw [auto_loop, auto_loop]
          by_cases hemp : (select_candidates jobs key category).isEmpty = true
          · rw [if_pos hemp, if_pos hemp]
          · rw [if_neg hemp, if_neg hemp]
            rcases htry : try_looms jobs key category L used with _ | ⟨jobs1, ropt⟩
            · rfl
            · obtain ⟨lv, hlvL, hlvu, rm, hafja, hr⟩ := try_looms_eq_some htry
              obtain ⟨j, hhead, hjmem, hjmask, hjun, hbranch⟩ := afja_cases hafja
              cases ropt with
              | some n =>
                  show auto_loop key category L f1 jobs1 (n :: used) (count + 1) =
                    auto_loop key category L f2 jobs1 (n :: used) (count + 1)
                  rcases hbranch with ⟨hrm, _, _⟩ | ⟨hrm, heq⟩
                  · rw [hrm] at hr
                    simp at hr
                  · subst heq
                    have hlen := select_candidates_set_length
                      (v := Assign.loom lv.tezgah) hN hjmem hjmask
                    exact ih f2 _ _ _ (by rw [set_assign_map_id]; exact hN)
                      (by omega) (by omega)
              | none =>
                  show auto_loop key category L f1 jobs1 used count =
                    auto_loop key category L f2 jobs1 used count
                  rcases hbranch with ⟨hrm, hnote, heq⟩ | ⟨hrm, heq⟩
                  · subst heq
                    have hlen := select_candidates_set_length
                      (v := Assign.atla) hN hjmem hjmask
                    exact ih f2 _ _ _ (by rw [set_assign_map_id]; exact hN)
                      (by omega) (by omega)
                  · rw [hrm] at hr
                    simp at hr

/-! ## Claim C1 — no double-booking -/

/-- C1.  No double-booking: within one automatic planning run over fixed job
and machine tables (with distinct job row ids), any two distinct jobs that
the run moves from unassigned to an assigned machine number receive
different machine numbers. -/
theorem c1_no_double_booking (jobs : List Job) (df_looms : List Loom)
    (blocked dummy : List Nat) (thr : Int) (e : List Job) (t : Nat)
    (hN : (jobs.map Job.id).Nodup)
    (h : auto_plan_all_groups jobs df_looms blocked dummy thr = (e, t))
    (p q : Nat) (hp : p < jobs.length) (hq : q < jobs.length) (hpq : p ≠ q)
    (hup : (jobs.getD p defaultJob).tezgahNumarasi = none)
    (huq : (jobs.getD q defaultJob).tezgahNumarasi = none)
    (n1 n2 : Nat)
    (h1 : (e.getD p defaultJob).tezgahNumarasi = some (Assign.loom n1))
    (h2 : (e.getD q defaultJob).tezgahNumarasi = some (Assign.loom n2)) :
    n1 ≠ n2 := by
  obtain ⟨hR, _⟩ := auto_all_spec hN h
  exact reach_no_double hR hN p q hp hq hpq hup huq n1 n2 h1 h2

/-- Witness for C1: the two-job fixture run assigns machines 2201 and 2202 to
the two jobs, and the theorem yields their distinctness. -/
theorem c1_no_double_booking_witness :
    (([jA, jB].map Job.id).Nodup) ∧
    auto_plan_all_groups [jA, jB] [lA, lB] [] [] 100 =
      ([{ jA with tezgahNumarasi := some (Assign.loom 2201) },
        { jB with tezgahNumarasi := some (Assign.loom 2202) }], 2) ∧
    (2201 : Nat) ≠ 2202 :=
  ⟨by decide, by decide,
    c1_no_double_booking [jA, jB] [lA, lB] [] [] 100
      [{ jA with tezgahNumarasi := some (Assign.loom 2201) },
        { jB with tezgahNumarasi := some (Assign.loom 2202) }] 2
      (by decide) (by decide) 0 1 (by decide) (by decide) (by decide)
      (by decide) (by decide) 2201 2202 (by decide) (by decide)⟩

/-! ## Claim C4 — terminal jobs are never re-selected -/

/-- C4.  Terminal jobs are never re-selected: every job the shared selection
filter of both allocators returns is unassigned; the full automatic run never
changes the assignment of a job whose assignment column is already set; and
one interactive assignment step, whatever the operator answers, never changes
the assignment of an already-set job either. -/
theorem c4_terminal_jobs_never_reselected :
    (∀ (jobs : List Job) (key category : String) (j : Job),
      j ∈ select_candidates jobs key category → j.tezgahNumarasi = none) ∧
    (∀ (jobs : List Job) (df_looms : List Loom) (blocked dummy : List Nat) (thr : Int)
      (e : List Job) (t : Nat), (jobs.map Job.id).Nodup →
      auto_plan_all_groups jobs df_looms blocked dummy thr = (e, t) →
      ∀ p, p < jobs.length → ∀ v, (jobs.getD p defaultJob).tezgahNumarasi = some v →
        (e.getD p defaultJob).tezgahNumarasi = some v) ∧
    (∀ (jobs : List Job) (key category : String) (loomNo : Nat) (sup orgu : String)
      (d1 d2 d3 : Decision) (ok rm : Bool) (out : List Job), (jobs.map Job.id).Nodup →
      assign_first_job jobs key category loomNo sup orgu d1 d2 d3 = (ok, rm, out) →
      ∀ p, p < jobs.length → ∀ v, (jobs.getD p defaultJob).tezgahNumarasi = some v →
        (out.getD p defaultJob).tezgahNumarasi = some v) := by
  refine ⟨?_, ?_, ?_⟩
  · intro jobs key category j hj
    exact mask_unassigned (mem_select_candidates.mp hj).2
  · intro jobs df_looms blocked dummy thr e t hN h p hp v hv
    obtain ⟨hR, _⟩ := auto_all_spec hN h
    exact reach_preserves_assigned hR hN p hp v hv
  · intro jobs key category loomNo sup orgu d1 d2 d3 ok rm out hN h p hp v hv
    rcases afj_manual_cases h with rfl | ⟨j, _, hjmem, hjun, w, rfl⟩
    · exact hv
    · exact set_assign_preserves_pos hN hjmem hjun p hp v hv

/-- Witness for C4: in the fixture run, a job pre-assigned to machine 2300
keeps that assignment through a full automatic run, and the selection filter
never returns it. -/
theorem c4_terminal_jobs_never_reselected_witness :
    (([⟨9, "60/4/120", true, "DENIM", 0, "", "3A", "", "60/4/120 X",
        some (Assign.loom 2300)⟩, jA].map Job.id).Nodup) ∧
    ((auto_plan_all_groups [⟨9, "60/4/120", true, "DENIM", 0, "", "3A", "",
        "60/4/120 X", some (Assign.loom 2300)⟩, jA] [lA, lB] [] [] 100).1.getD 0
        defaultJob).tezgahNumarasi = some (Assign.loom 2300) := by
  refine ⟨by decide, ?_⟩
  exact c4_terminal_jobs_never_reselected.2.1
    [⟨9, "60/4/120", true, "DENIM", 0, "", "3A", "", "60/4/120 X",
      some (Assign.loom 2300)⟩, jA] [lA, lB] [] [] 100 _ _ (by decide) rfl
    0 (by decide) (Assign.loom 2300) (by decide)

/-! ## Claim C5 — what the automatic run counts -/

/-- Counterexample to C5 as stated: a group whose only job carries a remark.
The automatic run marks the job with the skip sentinel — one job changed
state — yet returns the total 0: skipped jobs are not counted, only jobs
that received a machine. -/
theorem c5_counterexample :
    auto_plan_all_groups [jNote] [lA] [] [] 100 =
      ([{ jNote with tezgahNumarasi := some Assign.atla }], 0) := by
  decide

/-- C5 (amended).  The per-group count of the automatic allocator is exactly
the number of jobs that newly received an assigned machine in that group —
skipped jobs are not counted — and the full run (all DENIM groups first,
then all HAM groups, by construction of `auto_plan_all_groups`) returns the
sum, i.e. the total number of newly machine-assigned jobs. -/
theorem c5_count_assigned_only :
    (∀ (jobs : List Job) (df_looms : List Loom) (blocked dummy : List Nat) (thr : Int)
      (key category : String) (e : List Job) (c : Nat), (jobs.map Job.id).Nodup →
      auto_plan_for_group jobs df_looms blocked dummy thr key category = (e, c) →
      num_assigned e = num_assigned jobs + c) ∧
    (∀ (jobs : List Job) (df_looms : List Loom) (blocked dummy : List Nat) (thr : Int)
      (e : List Job) (t : Nat), (jobs.map Job.id).Nodup →
      auto_plan_all_groups jobs df_looms blocked dummy thr = (e, t) →
      num_assigned e = num_assigned jobs + t) := by
  constructor
  · intro jobs df_looms blocked dummy thr key category e c hN h
    exact (auto_group_spec hN h).2.1
  · intro jobs df_looms blocked dummy thr e t hN h
    exact (auto_all_spec hN h).2

/-- Witness for C5's amended theorem at the two-job fixture: the run returns
2 and indeed two more jobs hold machines afterwards. -/
theorem c5_count_assigned_only_witness :
    num_assigned [{ jA with tezgahNumarasi := some (Assign.loom 2201) },
      { jB with tezgahNumarasi := some (Assign.loom 2202) }] =
      num_assigned [jA, jB] + 2 :=
  c5_count_assigned_only.2 [jA, jB] [lA, lB] [] [] 100 _ 2 (by decide) (by decide)

/-! ## Claim C6 — idempotent re-run -/

/-- C6.  Idempotent re-run: starting from the state a full automatic planning
run produced, a second full run over the same machine table changes no job
and returns the total 0. -/
theorem c6_idempotent (jobs : List Job) (df_looms : List Loom)
    (blocked dummy : List Nat) (thr : Int) (e : List Job) (t : Nat)
    (hN : (jobs.map Job.id).Nodup)
    (h : auto_plan_all_groups jobs df_looms blocked dummy thr = (e, t)) :
    auto_plan_all_groups e df_looms blocked dummy thr = (e, 0) := by
  unfold auto_plan_all_groups at h
  rcases h1 : run_labels df_looms blocked dummy thr "DENIM" (group_labels jobs "DENIM") jobs 0
    with ⟨m, t1⟩
  rw [h1] at h
  have hA : (match run_labels df_looms blocked dummy thr "HAM" (group_labels jobs "HAM") m 0
      with
      | (jobs2, t2) => ((jobs2, t1 + t2) : List Job × Nat)) = (e, t) := h
  rcases h2 : run_labels df_looms blocked dummy thr "HAM" (group_labels jobs "HAM") m 0
    with ⟨e2, t2⟩
  rw [h2] at hA
  have h3 : ((e2, t1 + t2) : List Job × Nat) = (e, t) := hA
  injection h3 with he ht
  subst he
  obtain ⟨hR1, _, hS1, _⟩ := run_labels_spec df_looms blocked dummy thr "DENIM"
    (group_labels jobs "DENIM") jobs 0 m t1 h1 hN
  have hNm := reach_nodup hR1 hN
  obtain ⟨hR2, _, hS2, hP2⟩ := run_labels_spec df_looms blocked dummy thr "HAM"
    (group_labels jobs "HAM") m 0 e2 t2 h2 hNm
  have hRje : RunReach jobs e2 := hR1.trans hR2
  have hcatne : catIsHam "DENIM" ≠ catIsHam "HAM" := by decide
  have hstuckD : ∀ lb ∈ group_labels jobs "DENIM",
      Stuck e2 df_looms blocked dummy thr (current_key e2 lb) "DENIM" := by
    intro lb hlb
    have hs1 := hS1 lb hlb
    have hpres := hP2 (current_key m lb) "DENIM" (Or.inl hcatne)
    have hst := stuck_stable hs1 hpres (reach_assigned_mono hR2 hNm)
    rw [show current_key e2 lb = current_key m lb from reach_current_key hR2 lb]
    exact hst
  unfold auto_plan_all_groups
  rw [reach_group_labels hRje "DENIM", reach_group_labels hRje "HAM",
    run_labels_noop (group_labels jobs "DENIM") e2 0 hstuckD]
  show (match run_labels df_looms blocked dummy thr "HAM" (group_labels jobs "HAM") e2 0
      with
      | (jobs2, t2) => ((jobs2, 0 + t2) : List Job × Nat)) = (e2, 0)
  rw [run_labels_noop (group_labels jobs "HAM") e2 0 hS2]

/-- Witness for C6 at the two-job fixture: the second run over the state the
first run produced is a no-op with total 0. -/
theorem c6_idempotent_witness :
    auto_plan_all_groups [{ jA with tezgahNumarasi := some (Assign.loom 2201) },
      { jB with tezgahNumarasi := some (Assign.loom 2202) }] [lA, lB] [] [] 100 =
      ([{ jA with tezgahNumarasi := some (Assign.loom 2201) },
        { jB with tezgahNumarasi := some (Assign.loom 2202) }], 0) :=
  c6_idempotent [jA, jB] [lA, lB] [] [] 100 _ 2 (by decide) (by decide)

/-! ## Claim C7 — monotonic termination of the group loop -/

/-- C7.  Monotonic termination: the job loop of the automatic group allocator
is insensitive to any iteration budget exceeding the number of unassigned
candidate jobs — with the budget `auto_plan_for_group` supplies (one per
candidate job plus one) it has already halted, so the loop performs at most
one state-changing iteration per unassigned job of the group; and each
iteration either halts, skips exactly one job, or assigns a machine to
exactly one job. -/
theorem c7_group_loop_halts :
    (∀ (key category : String) (L : List LoomView) (fuel1 fuel2 : Nat) (jobs : List Job)
      (used : List Nat) (count : Nat), (jobs.map Job.id).Nodup →
      (select_candidates jobs key category).length < fuel1 →
      (select_candidates jobs key category).length < fuel2 →
      auto_loop key category L fuel1 jobs used count =
        auto_loop key category L fuel2 jobs used count) ∧
    (∀ (key category : String) (L : List LoomView) (fuel : Nat) (jobs : List Job)
      (used : List Nat) (count : Nat),
      auto_loop key category L (fuel + 1) jobs used count = (jobs, count) ∨
      ∃ j, j ∈ jobs ∧ j.tezgahNumarasi = none ∧
        (auto_loop key category L (fuel + 1) jobs used count =
            auto_loop key category L fuel (set_assign jobs j.id Assign.atla) used count ∨
          ∃ n, auto_loop key category L (fuel + 1) jobs used count =
            auto_loop key category L fuel (set_assign jobs j.id (Assign.loom n))
              (n :: used) (count + 1))) := by
  constructor
  · intro key category L fuel1 fuel2 jobs used count hN h1 h2
    exact auto_loop_fuel_invariant key category L fuel1 fuel2 jobs used count hN h1 h2
  · intro key category L fuel jobs used count
    rw [auto_loop]
    by_cases hemp : (select_candidates jobs key category).isEmpty = true
    · rw [if_pos hemp]
      exact Or.inl rfl
    · rw [if_neg hemp]
      rcases htry : try_looms jobs key category L used with _ | ⟨jobs1, ropt⟩
      · exact Or.inl rfl
      · obtain ⟨lv, hlvL, hlvu, rm, hafja, hr⟩ := try_looms_eq_some htry
        obtain ⟨j, hhead, hjmem, hjmask, hjun, hbranch⟩ := afja_cases hafja
        cases ropt with
        | some n =>
            rcases hbranch with ⟨hrm, _, _⟩ | ⟨hrm, heq⟩
            · rw [hrm] at hr
              simp at hr
            · have hr2 : n = lv.tezgah := by rw [hrm] at hr; simpa using hr
              subst hr2
              subst heq
              exact Or.inr ⟨j, hjmem, hjun, Or.inr ⟨lv.tezgah, rfl⟩⟩
        | none =>
            rcases hbranch with ⟨hrm, hnote, heq⟩ | ⟨hrm, heq⟩
            · subst heq
              exact Or.inr ⟨j, hjmem, hjun, Or.inl rfl⟩
            · rw [hrm] at hr
              simp at hr

/-- Witness for C7: at the one-job fixture the loop's value with budget 2 is
the value with budget 7. -/
theorem c7_group_loop_halts_witness :
    auto_loop "60/4/120" "DENIM" [⟨2201, "10 DİŞ", "3A"⟩] 2 [jA] [] 0 =
      auto_loop "60/4/120" "DENIM" [⟨2201, "10 DİŞ", "3A"⟩] 7 [jA] [] 0 :=
  c7_group_loop_halts.1 "60/4/120" "DENIM" [⟨2201, "10 DİŞ", "3A"⟩] 2 7 [jA] [] 0
    (by decide) (by decide) (by decide)

/-! ## Claim C10 — remark handling of the automatic allocator -/

/-- Counterexample to C10 as stated: a job whose remark cell holds the
literal, non-empty text "nan" is not skipped — the automatic run assigns it
machine 2201, because the code treats the texts "nan" and "none" as missing
values (`job_note.lower() not in ("", "nan", "none")`). -/
theorem c10_counterexample :
    sTrim jNan.notlar ≠ "" ∧
    auto_plan_all_groups [jNan] [lA] [] [] 100 =
      ([{ jNan with tezgahNumarasi := some (Assign.loom 2201) }], 1) :=
  ⟨by decide, by decide⟩

/-- C10 (amended).  Whenever the earliest-due unassigned job of a group has a
remark whose stripped text is non-empty and, lowercased, is not "nan" or
"none", the automatic allocator immediately marks it skipped: the assignment
call returns the skip update for every machine without evaluating any
compatibility rule, and the machine walk returns that update consuming no
machine (the used set is extended by nothing). -/
theorem c10_remark_skip (jobs : List Job) (key category : String) (j : Job)
    (hhead : (select_candidates jobs key category).head? = some j)
    (hnote : note_triggers j.notlar = true) :
    (∀ (loomNo : Nat) (sup orgu : String),
      assign_first_job_auto jobs key category loomNo sup orgu =
        (true, false, set_assign jobs j.id Assign.atla)) ∧
    (∀ (L : List LoomView) (used : List Nat) (lv : LoomView), lv ∈ L →
      used.contains lv.tezgah = false →
      try_looms jobs key category L used =
        some (set_assign jobs j.id Assign.atla, none)) := by
  have hskip : ∀ (loomNo : Nat) (sup orgu : String),
      assign_first_job_auto jobs key category loomNo sup orgu =
        (true, false, set_assign jobs j.id Assign.atla) := by
    intro loomNo sup orgu
    unfold assign_first_job_auto
    rw [hhead]
    simp [hnote]
  refine ⟨hskip, ?_⟩
  intro L
  induction L with
  | nil => intro used lv hlv _; cases hlv
  | cons lv0 rest ih =>
      intro used lv hlv hlvu
      unfold try_looms
      by_cases hu : used.contains lv0.tezgah = true
      · rw [if_pos hu]
        rcases List.mem_cons.mp hlv with rfl | hmem
        · rw [hu] at hlvu
          cases hlvu
        · exact ih used lv hmem hlvu
      · rw [if_neg hu]
        rw [hskip lv0.tezgah lv0.susKenar lv0.orgu]
        rfl

/-- Witness for C10's amended theorem: the noted fixture job is skipped by
the assignment call for machine 2201 regardless of that machine's selvedge
and weave. -/
theorem c10_remark_skip_witness :
    (select_candidates [jNote] "60/4/120" "DENIM").head? = some jNote ∧
    note_triggers jNote.notlar = true ∧
    assign_first_job_auto [jNote] "60/4/120" "DENIM" 2201 "5 DİŞ" "K1" =
      (true, false, set_assign [jNote] jNote.id Assign.atla) :=
  ⟨by decide, by decide,
    (c10_remark_skip [jNote] "60/4/120" "DENIM" jNote (by decide) (by decide)).1
      2201 "5 DİŞ" "K1"⟩

end PD

end UzmanDepo
